import Mathlib

/-!
A verification development for `ex/q/q.go`.

`q` is a small `dig`-like DNS client.  This file embeds the pure core of
`q.go` (TSIG key parsing, endpoint normalisation, the exchange completion
handler with its truncation fallback ladder, the signature check and the
redaction filter) as Lean definitions and proves properties about them.

Conventions of the embedding:

* Go strings are Lean `String`s.  Every byte the source compares against is
  an ASCII byte (`':'`, `'['`, `']'`, `'@'`, `'.'`), so working on characters
  instead of bytes gives the same result on valid UTF-8 text.
* Output is modelled as a trace: each `Printf`, each network exchange and each
  call into the protocol library appends one `Event`.
* The network is a stream `Nat → Reply`: the `k`-th exchange performed gets
  reply `net k`.
* A Go run-time panic is the last event of a trace, `Event.panic`.
-/

namespace Q

/-! ## Strings -/

/-- The call `strings.Index(s, ":")` followed by the two slices `s[:m]` and `s[m+1:]`
that `strings.SplitN` takes: the text before the first separator and the text
after it, or `none` when the separator does not occur. -/
def cutAt (sep : Char) : List Char → Option (List Char × List Char)
  | [] => none
  | c :: cs =>
    if c = sep then some ([], cs)
    else match cutAt sep cs with
      | none => none
      | some (a, b) => some (c :: a, b)

/-- The function `strings.SplitN(s, sep, n)` of the Go standard library for a one-byte
separator: `n = 0` gives no substrings; otherwise at most `n` substrings, the
last one being the unsplit remainder. -/
def splitN (sep : Char) : Nat → List Char → List (List Char)
  | 0, _ => []
  | 1, s => [s]
  | n + 2, s =>
    match cutAt sep s with
    | none => [s]
    | some (a, rest) => a :: splitN sep (n + 1) rest

/-- The function `strings.SplitN` on strings. -/
def SplitN (s : String) (sep : Char) (n : Nat) : List String :=
  (splitN sep n s.data).map String.mk

/-- The function `tsigKeyParse` of q.go (lines 278-294).  The result is
`(algo, name, secret, ok)`; the bare `return` at the end gives the zero values
`("", "", "", false)`. -/
def tsigKeyParse (s : String) : String × String × String × Bool :=
  match SplitN s ':' 3 with
  | [s10, s11] => ("hmac-md5.sig-alg.reg.int.", s10, s11, true)
  | [s10, s11, s12] =>
    if s10 = "hmac-md5" then ("hmac-md5.sig-alg.reg.int.", s10, s11, true)
    else if s10 = "hmac-sha1" then ("hmac-sha1.", s11, s12, true)
    else if s10 = "hmac-sha256" then ("hmac-sha256.", s11, s12, true)
    else ("", "", "", false)
  | _ => ("", "", "", false)

/-! ## Endpoint normalisation -/

/-- The function `strconv.Itoa` on a natural number: its decimal digits, most significant
first (`fuel` bounds the number of digits). -/
def digits : Nat → Nat → List Char → List Char
  | 0, _, acc => acc
  | fuel + 1, n, acc =>
    let acc1 := Char.ofNat (48 + n % 10) :: acc
    if n / 10 = 0 then acc1 else digits fuel (n / 10) acc1

/-- The function `strconv.Itoa` of the Go standard library. -/
def Itoa (i : Int) : String :=
  match i with
  | Int.ofNat n => String.mk (digits (n + 1) n [])
  | Int.negSucc n => String.mk ('-' :: digits (n + 2) (n + 1) [])

/-- The constant `big` of `net/parse.go`: numbers that reach it are rejected. -/
def big : Nat := 0xFFFFFF

/-- The function `dtoi` of `net/parse.go`: the decimal number at the start of the text and
the text after it; `none` when there is no digit or the number reaches `big`. -/
def dtoi : List Char → Nat → Bool → Option (Nat × List Char)
  | [], n, seen => if seen then some (n, []) else none
  | c :: cs, n, seen =>
    if '0' ≤ c ∧ c ≤ '9' then
      let n1 := n * 10 + (c.toNat - '0'.toNat)
      if n1 ≥ big then none else dtoi cs n1 true
    else if seen then some (n, c :: cs) else none

/-- The function `xtoi` of `net/parse.go`: the hexadecimal number at the start of the text
and the text after it; `none` when there is no digit or the number reaches
`big`. -/
def xtoi : List Char → Nat → Bool → Option (Nat × List Char)
  | [], n, seen => if seen then some (n, []) else none
  | c :: cs, n, seen =>
    if '0' ≤ c ∧ c ≤ '9' then
      let n1 := n * 16 + (c.toNat - '0'.toNat)
      if n1 ≥ big then none else xtoi cs n1 true
    else if 'a' ≤ c ∧ c ≤ 'f' then
      let n1 := n * 16 + (c.toNat - 'a'.toNat + 10)
      if n1 ≥ big then none else xtoi cs n1 true
    else if 'A' ≤ c ∧ c ≤ 'F' then
      let n1 := n * 16 + (c.toNat - 'A'.toNat + 10)
      if n1 ≥ big then none else xtoi cs n1 true
    else if seen then some (n, c :: cs) else none

/-- An IP address as the `net` package holds it: a list of 4 or 16 bytes. -/
abbrev IP := List Nat

/-- The function `net.IPv4(a, b, c, d)`: the 16-byte form of an IPv4 address. -/
def IPv4 (a b c d : Nat) : IP := [0, 0, 0, 0, 0, 0, 0, 0, 0, 0, 0xff, 0xff, a, b, c, d]

/-- The loop of `parseIPv4`: `j` octets are still to be read; every octet but
the first is preceded by a dot. -/
def parseOctets : Nat → Bool → List Char → Option (List Nat × List Char)
  | 0, _, s => some ([], s)
  | j + 1, first, s =>
    match s with
    | [] => none
    | c :: cs =>
      let afterDot : Option (List Char) :=
        if first then some (c :: cs) else if c = '.' then some cs else none
      match afterDot with
      | none => none
      | some t =>
        match dtoi t 0 false with
        | none => none
        | some (n, rest) =>
          if n > 0xFF then none
          else match parseOctets j false rest with
            | none => none
            | some (ns, rest1) => some (n :: ns, rest1)

/-- The function `parseIPv4` of `net/ip.go`: `d.d.d.d`, the whole text used. -/
def parseIPv4 (s : List Char) : Option IP :=
  match parseOctets 4 true s with
  | some ([a, b, c, d], []) => some (IPv4 a b c d)
  | _ => none

/-- The main loop of `parseIPv6`.  `groups` bounds the iterations (each one
stores two bytes), `p` holds the `j = p.length` bytes stored so far, `ell` the
position of the ellipsis once seen.  The result is the bytes stored, the
ellipsis and the text not used; `none` is the `return nil` of the loop. -/
def parseIPv6Loop : Nat → List Nat → Option Nat → List Char →
    Option (List Nat × Option Nat × List Char)
  | 0, p, ell, s => some (p, ell, s)
  | groups + 1, p, ell, s =>
    match xtoi s 0 false with
    | none => none
    | some (n, s1) =>
      if n > 0xFFFF then none
      else if s1.head? = some '.' then
        -- trailing IPv4
        if ell = none ∧ p.length ≠ 12 then none
        else if p.length + 4 > 16 then none
        else match parseIPv4 s with
          | none => none
          | some p4 => some (p ++ p4.drop 12, ell, [])
      else
        let p1 := p ++ [n / 256 % 256, n % 256]
        match s1 with
        | [] => some (p1, ell, [])
        | c :: s2 =>
          if c ≠ ':' ∨ s2 = [] then none
          else match s2 with
            | ':' :: s3 =>
              if ell ≠ none then none
              else if s3 = [] then some (p1, some p1.length, [])
              else parseIPv6Loop groups p1 (some p1.length) s3
            | _ => parseIPv6Loop groups p1 ell s2

/-- The function `parseIPv6` of `net/ip.go`. -/
def parseIPv6 (s : List Char) : Option IP :=
  let start : Option (Option Nat × List Char) :=
    match s with
    | ':' :: ':' :: t => if t = [] then none else some (some 0, t)
    | _ => some (none, s)
  match start with
  | none => some (List.replicate 16 0)
  | some (ell, t) =>
    match parseIPv6Loop 8 [] ell t with
    | none => none
    | some (p, ell1, rest) =>
      if rest ≠ [] then none
      else if p.length < 16 then
        match ell1 with
        | none => none
        | some e => some (p.take e ++ List.replicate (16 - p.length) 0 ++ p.drop e)
      else some p

/-- The function `net.ParseIP`: dotted decimal first, IPv6 text otherwise. -/
def ParseIP (s : String) : Option IP :=
  match parseIPv4 s.data with
  | some ip => some ip
  | none => parseIPv6 s.data

/-- The function `IP.To4` of `net/ip.go`: the 4-byte form of an address that is an IPv4
address (4 bytes, or 16 bytes with the IPv4-in-IPv6 prefix), else `none`. -/
def To4 (ip : IP) : Option IP :=
  if ip.length = 4 then some ip
  else if ip.length = 16 ∧ ip.take 10 = List.replicate 10 0 ∧
      (ip.drop 10).take 2 = [0xff, 0xff] then some (ip.drop 12)
  else none

/-- The function `IP.To16` of `net/ip.go`. -/
def To16 (ip : IP) : Option IP :=
  match ip with
  | [a, b, c, d] => some (IPv4 a b c d)
  | _ => if ip.length = 16 then some ip else none

/-- Modelled from the spec: `dns.Fqdn` of the protocol library is not part of
the source file; it fully qualifies a name, ensuring a trailing root label. -/
def Fqdn (s : String) : String :=
  if s.data.getLast? = some '.' then s else s ++ "."

/-- The endpoint normalisation of `main` (q.go lines 112-130): the server
token, still carrying its leading `@`, and the port give the address handed to
the transport.  `none` is a run-time panic (an index out of range on an empty
token). -/
def endpoint (nameserver : String) (port : Int) : Option String :=
  match nameserver.data with
  | [] => none
  | _ :: ns =>          -- chop off @
    match ns with
    | [] => none
    | c :: _ =>
      let ns1 : List Char :=
        if c = '[' ∧ ns.getLast? = some ']' then (ns.drop 1).take (ns.length - 2) else ns
      let host := String.mk ns1
      match ParseIP host with
      | some i =>
        if (To4 i).isSome then some (host ++ ":" ++ Itoa port)
        else if (To16 i).isSome then some ("[" ++ host ++ "]:" ++ Itoa port)
        else some host
      | none => some (Fqdn host ++ ":" ++ Itoa port)

/-- The function `net.SplitHostPort` of the Go standard library: the port
starts after the last colon; the host may be in brackets, and a host without
brackets may hold no colon.  `none` is an error (`missing port in address`,
`too many colons in address`). -/
def SplitHostPort (hostport : String) : Option (String × String) :=
  match cutAt ':' hostport.data.reverse with
  | none => none
  | some (portRev, hostRev) =>
    let host := hostRev.reverse
    let port := portRev.reverse
    if host.head? = some '[' ∧ host.getLast? = some ']' then
      some (String.mk ((host.drop 1).take (host.length - 2)), String.mk port)
    else if ':' ∈ host then none
    else some (String.mk host, String.mk port)

/-! ## Records and messages -/

/-- Modelled from the spec: the record types belong to the protocol message
library, which is not part of the source file.  The header carries the owner
name and the type code that q.go reads; `Rest` stands for class, TTL and
length, which q.go never touches. -/
structure RR_Header where
  Name : String
  Rrtype : Nat
  Rest : List Nat
deriving DecidableEq

/-- Modelled from the spec: a delegation-signer record; q.go writes `Digest`. -/
structure RR_DS where
  Hdr : RR_Header
  Digest : String
  Rest : List Nat
deriving DecidableEq

/-- Modelled from the spec: a key record; q.go writes `PublicKey`. -/
structure RR_DNSKEY where
  Hdr : RR_Header
  PublicKey : String
  Rest : List Nat
deriving DecidableEq

/-- Modelled from the spec: a signature record with the covered type, the key
tag, the signer name and the signature that q.go reads or writes. -/
structure RR_RRSIG where
  Hdr : RR_Header
  TypeCovered : Nat
  KeyTag : Nat
  SignerName : String
  Signature : String
  Rest : List Nat
deriving DecidableEq

/-- Modelled from the spec: a salted-hash denial record; q.go writes `Salt`
and `TypeBitMap`. -/
structure RR_NSEC3 where
  Hdr : RR_Header
  Salt : String
  TypeBitMap : List Nat
  Rest : List Nat
deriving DecidableEq

/-- Modelled from the spec: an EDNS0 option, either NSID or client-subnet (the
option code is the constant of its kind). -/
inductive EDNS0 where
  | NSID
  | SUBNET (Family SourceNetmask SourceScope : Nat) (Address : IP)
deriving DecidableEq

/-- Modelled from the spec: the EDNS0 pseudo-record.  `UDPSize` is the buffer
size it advertises (what `SetUDPSize` stores), `Do` the DNSSEC-OK flag (what
`SetDo` sets). -/
structure RR_OPT where
  Hdr : RR_Header
  UDPSize : Nat
  Do : Bool
  Option : List EDNS0
deriving DecidableEq

/-- Modelled from the spec: a resource record is one of the typed variants of
the library (`dns.RR` is an interface; the constructor is the dynamic type the
type switches and type assertions of q.go inspect). -/
inductive RR where
  | DS (t : RR_DS)
  | DNSKEY (t : RR_DNSKEY)
  | RRSIG (t : RR_RRSIG)
  | NSEC3 (t : RR_NSEC3)
  | OPT (t : RR_OPT)
  | Other (Hdr : RR_Header) (Rdata : List Nat)
deriving DecidableEq

/-- The method `Header()` of a record. -/
def RR.Header : RR → RR_Header
  | .DS t => t.Hdr
  | .DNSKEY t => t.Hdr
  | .RRSIG t => t.Hdr
  | .NSEC3 t => t.Hdr
  | .OPT t => t.Hdr
  | .Other h _ => h

/-- Type codes and sizes of the protocol library (the IANA values). -/
def TypeOPT : Nat := 41
/-- Type code of a signature record. -/
def TypeRRSIG : Nat := 46
/-- Type code of a key record. -/
def TypeDNSKEY : Nat := 48
/-- Type code of a salted-hash denial record. -/
def TypeNSEC3 : Nat := 50
/-- The large default buffer size, `dns.DefaultMsgSize`. -/
def DefaultMsgSize : Nat := 4096

/-- Modelled from the spec: the message header; q.go reads and writes the
wire identifier, the truncation flag and the four query flags. -/
structure MsgHdr where
  Id : Nat
  Truncated : Bool
  Authoritative : Bool
  AuthenticatedData : Bool
  CheckingDisabled : Bool
  RecursionDesired : Bool
deriving DecidableEq

/-- Modelled from the spec: one question of a message. -/
structure Question where
  Name : String
  Qtype : Nat
  Qclass : Nat
deriving DecidableEq

/-- Modelled from the spec: a protocol message with its three record sections
and its wire size. -/
structure Msg where
  MsgHdr : MsgHdr
  Question : List Question
  Answer : List RR
  Ns : List RR
  Extra : List RR
  Size : Nat
deriving DecidableEq

/-- What one network exchange returns: a response with its round-trip time
(`e == nil`) or an error. -/
inductive Reply where
  | ok (r : Msg) (rtt : Nat)
  | err (e : String)
deriving DecidableEq

/-- The functions of the protocol library and of the Go standard library that
the checks call and that are not part of the source file. -/
structure Lib where
  /-- The function `strings.ToLower`. -/
  ToLower : String → String
  /-- The method `KeyTag()` of a key record. -/
  KeyTag : RR_DNSKEY → Nat
  /-- The method `Verify(key, rrset)` of a signature record; `none` is a nil
  error. -/
  Verify : RR_RRSIG → RR_DNSKEY → List RR → Option String
  /-- The table `dns.Rr_str` from type code to type name. -/
  Rr_str : Nat → String

/-! ## Redaction filter -/

/-- The function `shortRR` of q.go (lines 421-436). -/
def shortRR (r : RR) : RR :=
  match r with
  | .DS t => .DS { t with Digest := "..." }
  | .DNSKEY t => .DNSKEY { t with PublicKey := "..." }
  | .RRSIG t => .RRSIG { t with Signature := "..." }
  | .NSEC3 t =>
    .NSEC3 { t with
      Salt := "-"
      TypeBitMap :=
        if t.TypeBitMap.length > 5 then (t.TypeBitMap.drop 1).take 4 else t.TypeBitMap }
  | r => r

/-- The function `shortMsg` of q.go (lines 408-419): the three loops replace every record
of the answer, authority and additional section by its short form. -/
def shortMsg (m : Msg) : Msg :=
  { m with
    Answer := m.Answer.map shortRR
    Ns := m.Ns.map shortRR
    Extra := m.Extra.map shortRR }

/-! ## Signature check -/

/-- One observable step of a run: a line printed, an exchange with the server,
a call of `Verify`, or the way the run ends. -/
inductive Event where
  /-- The line `;; <error>` on standard output. -/
  | printErr (e : String)
  /-- The line `Id mismatch` on the diagnostic stream. -/
  | idMismatch
  /-- The line `;; Truncated, trying <n> bytes bufsize`. -/
  | tryBufsize (n : Nat)
  /-- The call `c.ExchangeRtt(m, nameserver)` with the transport `c.Net` at that time. -/
  | exchange (m : Msg) (net : String) (server : String)
  /-- The line `;; Truncated, trying TCP`. -/
  | tryTCP
  /-- The line `;; Truncated`. -/
  | truncated
  /-- The exchange of `getKey`: a key-record query for `name`. -/
  | keyLookup (name : String) (net : String) (server : String)
  /-- The line `;? DNSKEY <signer>/<tag> not found`. -/
  | keyNotFound (signer : String) (tag : Nat)
  /-- The call `sig.Verify(key, rrset)`. -/
  | verify (sig : RR_RRSIG) (key : RR_DNSKEY) (rrset : List RR)
  /-- The line `;- Bogus signature, ... does not validate (DNSKEY name/tag/where) [err]`. -/
  | bogus (sig : String) (keyName : String) (keyTag : Nat) (source : String) (err : String)
  /-- The line `;+ Secure signature, ... validates (DNSKEY name/tag/where)`. -/
  | secure (sig : String) (keyName : String) (keyTag : Nat) (source : String)
  /-- The response printed with `%v`. -/
  | printMsg (r : Msg)
  /-- The line `;; query time: ..., server: ...(net), size: ... bytes`. -/
  | queryTime (rtt : Nat) (server : String) (net : String) (size : Nat)
  /-- The call `os.Exit(0)` of the deferred function. -/
  | exit
  /-- A run-time panic. -/
  | panic
deriving DecidableEq

/-- The function `getRRset` of q.go (lines 367-376): the loop appends to `l1` every record
whose lower-cased owner name and whose type are the ones asked for. -/
def getRRset (lib : Lib) (l : List RR) (name : String) (t : Nat) : List RR :=
  l.foldl
    (fun l1 rr =>
      if lib.ToLower rr.Header.Name = lib.ToLower name ∧ rr.Header.Rrtype = t then l1 ++ [rr]
      else l1)
    []

/-- The search of `getKey` (q.go lines 392-399) through the answer section:
the first key record whose tag is `keytag`. -/
def findKey (lib : Lib) (keytag : Nat) : List RR → Option RR_DNSKEY
  | [] => none
  | .DNSKEY k1 :: ks => if lib.KeyTag k1 = keytag then some k1 else findKey lib keytag ks
  | _ :: ks => findKey lib keytag ks

/-- The function `getKey` of q.go (lines 380-400), given the reply of its exchange: `none`
on an error or when no key of the answer has the tag. -/
def getKey (lib : Lib) (reply : Reply) (keytag : Nat) : Option RR_DNSKEY :=
  match reply with
  | .err _ => none
  | .ok r _ => findKey lib keytag r.Answer

/-- The function `shortSig` of q.go (lines 403-405). -/
def shortSig (lib : Lib) (sig : RR_RRSIG) : String :=
  sig.Hdr.Name ++ " RRSIG(" ++ lib.Rr_str sig.TypeCovered ++ ")"

/-- What a check hands back: the events it produced, the index of the next
reply of the network stream, and whether it ended without a panic. -/
structure CheckOut where
  trace : List Event
  next : Nat
  ok : Bool
deriving DecidableEq

/-- The loop of `sectionCheck` (q.go lines 298-321) over the records `rest`
still to visit; `set` is the whole section, `dnskey` the pinned key, `k` the
index of the next reply of the network stream `net`. -/
def sectionLoop (lib : Lib) (dnskey : Option RR_DNSKEY) (net : Nat → Reply)
    (server : String) (tcp : Bool) (set : List RR) : List RR → Nat → CheckOut
  | [], k => ⟨[], k, true⟩
  | rr :: rest, k =>
    if rr.Header.Rrtype = TypeRRSIG then
      match rr with
      | .RRSIG sig =>
        let rrset := getRRset lib set sig.Hdr.Name sig.TypeCovered
        -- the key: looked up when none is pinned
        let lookup : List Event × Nat × Option RR_DNSKEY :=
          match dnskey with
          | none =>
            ([.keyLookup sig.SignerName (if tcp then "tcp" else "") server], k + 1,
              getKey lib (net k) sig.KeyTag)
          | some pinned => ([], k, some pinned)
        match lookup.2.2 with
        | none =>
          let out := sectionLoop lib dnskey net server tcp set rest lookup.2.1
          ⟨lookup.1 ++ [.keyNotFound sig.SignerName sig.KeyTag] ++ out.trace, out.next, out.ok⟩
        | some key =>
          let source := if dnskey.isSome then "disk" else "net"
          let verdict : Event :=
            match lib.Verify sig key rrset with
            | some err => .bogus (shortSig lib sig) key.Hdr.Name (lib.KeyTag key) source err
            | none => .secure (shortSig lib sig) key.Hdr.Name (lib.KeyTag key) source
          let out := sectionLoop lib dnskey net server tcp set rest lookup.2.1
          ⟨lookup.1 ++ [.verify sig key rrset, verdict] ++ out.trace, out.next, out.ok⟩
      | _ => ⟨[.panic], k, false⟩     -- the type assertion rr.(*dns.RR_RRSIG) fails
    else sectionLoop lib dnskey net server tcp set rest k

/-- The function `sectionCheck` of q.go (lines 296-322). -/
def sectionCheck (lib : Lib) (dnskey : Option RR_DNSKEY) (net : Nat → Reply)
    (set : List RR) (server : String) (tcp : Bool) (k : Nat) : CheckOut :=
  sectionLoop lib dnskey net server tcp set set k

/-- The function `sigCheck` of q.go (lines 361-365): the three sections in turn; a panic in
one of them ends the check. -/
def sigCheck (lib : Lib) (dnskey : Option RR_DNSKEY) (net : Nat → Reply)
    (r : Msg) (server : String) (tcp : Bool) (k : Nat) : CheckOut :=
  let a := sectionCheck lib dnskey net r.Answer server tcp k
  if !a.ok then a
  else
    let n := sectionCheck lib dnskey net r.Ns server tcp a.next
    if !n.ok then ⟨a.trace ++ n.trace, n.next, false⟩
    else
      let e := sectionCheck lib dnskey net r.Extra server tcp n.next
      ⟨a.trace ++ n.trace ++ e.trace, e.next, e.ok⟩

/-- The function `nsecCheck` of q.go (lines 325-357): it looks for a record of type NSEC3
in the three sections and then does nothing either way (the check it would
jump to is commented out). -/
def nsecCheck (r : Msg) : List Event :=
  if (r.Answer ++ r.Ns ++ r.Extra).any (fun rr => rr.Header.Rrtype = TypeNSEC3) then [] else []

/-! ## Query building and the exchange completion handler -/

/-- Transport selection of `main` (q.go lines 132-149). -/
def selectNet (tcp four six : Bool) : String :=
  if tcp then
    let n := "tcp"
    let n := if four then "tcp4" else n
    if six then "tcp6" else n
  else
    let n := "udp"
    let n := if four then "udp4" else n
    if six then "udp6" else n

/-- The record `new(dns.RR_OPT)` with name `.` and type OPT that q.go builds
at lines 159-161 and 239-241. -/
def newOPT : RR_OPT := ⟨⟨".", TypeOPT, []⟩, 0, false, []⟩

/-- EDNS0 attachment of `main` (q.go lines 158-191) to the message `m`; `none`
is the early `return` after `Failure to parse IP address`. -/
def attachEdns (dnssec nsid : Bool) (client : String) (m : Msg) : Option Msg :=
  if dnssec ∨ nsid ∨ client ≠ "" then
    let o := newOPT
    let o := if dnssec then { o with Do := true, UDPSize := DefaultMsgSize } else o
    let o :=
      if nsid then { o with Option := o.Option ++ [EDNS0.NSID], UDPSize := DefaultMsgSize }
      else o
    if client ≠ "" then
      match ParseIP client with
      | none => none
      | some address =>
        let e : EDNS0 :=
          if (To4 address).isNone then .SUBNET 2 (16 * 8) 0 address
          else .SUBNET 1 (4 * 8) 0 address
        some { m with Extra := m.Extra ++ [.OPT { o with Option := o.Option ++ [e] }] }
    else some { m with Extra := m.Extra ++ [.OPT o] }
  else some m

/-- What the completion handler only reads: the flags `-fallback`, `-check`,
`-short` and `-tcp`, the normalised server address, the pinned key, and
whether this is the last query of the batch. -/
structure Config where
  fallback : Bool
  check : Bool
  short : Bool
  tcp : Bool
  nameserver : String
  dnskey : Option RR_DNSKEY
  last : Bool
deriving DecidableEq

/-- What the completion handler also writes: the transport `c.Net`, the flag
`*dnssec` and the request `m`. -/
structure State where
  Net : String
  dnssec : Bool
  m : Msg
deriving DecidableEq

/-- A finished run of the handler: its events, the state it leaves, and the
index of the next reply of the network stream. -/
structure Run where
  trace : List Event
  st : State
  next : Nat
deriving DecidableEq

/-- The tail of the handler (q.go lines 259-268) for the final response `r`:
the checks, the redaction and the two lines printed. -/
def conclude (lib : Lib) (cfg : Config) (net : Nat → Reply) (st : State) (k : Nat)
    (r : Msg) (rtt : Nat) : Run :=
  let chk : CheckOut :=
    if cfg.check then
      let c := sigCheck lib cfg.dnskey net r cfg.nameserver cfg.tcp k
      if c.ok then ⟨c.trace ++ nsecCheck r, c.next, true⟩ else c
    else ⟨[], k, true⟩
  if chk.ok then
    let r1 := if cfg.short then shortMsg r else r
    ⟨chk.trace ++ [.printMsg r1, .queryTime (rtt / 1000) cfg.nameserver st.Net r1.Size],
      st, chk.next⟩
  else ⟨chk.trace, st, chk.next⟩

/-- The request with one more EDNS0 record, of name `.`, type OPT and buffer
size `dns.DefaultMsgSize`, appended to its additional section (q.go lines
239-243). -/
def withOPT (m : Msg) : Msg :=
  { m with Extra := m.Extra ++ [.OPT { newOPT with UDPSize := DefaultMsgSize }] }

/-- A run with the events `pre` put in front of its trace. -/
def Run.after (pre : List Event) (run : Run) : Run :=
  { run with trace := pre ++ run.trace }

/-- The body of the completion handler from the label `Redo` on (q.go lines
226-268).  Every `goto Redo` is a recursive call that uses up one unit of
`fuel`; `none` means the fuel ran out.  `reply` is the response under
examination, `net k` the reply to the next exchange. -/
def Redo (lib : Lib) (cfg : Config) (net : Nat → Reply) :
    Nat → State → Nat → Reply → Option Run
  | 0, _, _, _ => none
  | _ + 1, st, k, .err e => some ⟨[.printErr e], st, k⟩
  | fuel + 1, st, k, .ok r rtt =>
    if r.MsgHdr.Id ≠ st.m.MsgHdr.Id then some ⟨[.idMismatch], st, k⟩
    else if r.MsgHdr.Truncated ∧ cfg.fallback ∧ st.Net ≠ "tcp" then
      if ¬ st.dnssec then
        let m1 := withOPT st.m
        let st1 : State := { st with m := m1, dnssec := true }
        (Redo lib cfg net fuel st1 (k + 1) (net k)).map
          (Run.after [.tryBufsize DefaultMsgSize, .exchange m1 st.Net cfg.nameserver])
      else
        -- First EDNS, then TCP
        let st1 : State := { st with Net := "tcp" }
        (Redo lib cfg net fuel st1 (k + 1) (net k)).map
          (Run.after [.tryTCP, .exchange st.m "tcp" cfg.nameserver])
    else
      let notice : List Event :=
        if r.MsgHdr.Truncated ∧ ¬ cfg.fallback then [.truncated] else []
      some ((conclude lib cfg net st k r rtt).after notice)

/-- The completion handler passed to `DoRtt` (q.go lines 220-269): the body,
then the deferred function, which ends the process after the last query.  The
ladder has two rungs, so three passes through `Redo` are enough. -/
def handler (lib : Lib) (cfg : Config) (net : Nat → Reply) (st : State) (k : Nat)
    (reply : Reply) : Option Run :=
  (Redo lib cfg net 3 st k reply).map fun run =>
    if cfg.last then { run with trace := run.trace ++ [.exit] } else run

/-- An event that is a re-issue of the query, `c.ExchangeRtt`. -/
def Event.isReissue : Event → Bool
  | .exchange _ _ _ => true
  | _ => false

/-- An event that announces the buffer upgrade. -/
def Event.isBufsize : Event → Bool
  | .tryBufsize _ => true
  | _ => false

/-- An event of the tail of the handler: a step of the signature check or one
of the two lines printed at the end. -/
def Event.isTail : Event → Bool
  | .keyLookup _ _ _ => true
  | .keyNotFound _ _ => true
  | .verify _ _ _ => true
  | .bogus _ _ _ _ _ => true
  | .secure _ _ _ _ => true
  | .panic => true
  | .printMsg _ => true
  | .queryTime _ _ _ _ => true
  | _ => false

/-- The number of passes through `Redo` that a state can still need after the
current one: two before the buffer upgrade, one before the switch to TCP,
none on TCP. -/
def State.rungs (st : State) : Nat :=
  if st.Net = "tcp" then 0 else if st.dnssec then 1 else 2

/-- A reply that is an accepted response with the truncation flag set: no
error, the identifier of the request `m`, and `Truncated`. -/
def Reply.truncatedFor (m : Msg) : Reply → Bool
  | .ok r _ => decide (r.MsgHdr.Id = m.MsgHdr.Id) && r.MsgHdr.Truncated
  | .err _ => false

/-- A record that is an EDNS0 pseudo-record. -/
def RR.isOPT : RR → Bool
  | .OPT _ => true
  | _ => false

/-! ## Fixtures for concrete runs -/

/-- A stand-in for the library in concrete runs: ASCII lower-casing, a key tag
read from the first entry of the key's `Rest`, a `Verify` that accepts a key
exactly when its tag is the signature's, and a two-entry type table. -/
def demoLib : Lib where
  ToLower := fun s => String.mk (s.data.map Char.toLower)
  KeyTag := fun k => k.Rest.headD 0
  Verify := fun sig key _ => if key.Rest.headD 0 = sig.KeyTag then none else some "dns: bad key"
  Rr_str := fun t => if t = 2 then "NS" else if t = 1 then "A" else ""

/-- The same stand-in with a `Verify` that accepts every key. -/
def lenientLib : Lib := { demoLib with Verify := fun _ _ _ => none }

/-- An NS record of `example.com.`. -/
def demoNS : RR := .Other ⟨"example.com.", 2, [1, 3600]⟩ [1]

/-- A second NS record, its owner name in upper case. -/
def demoNS2 : RR := .Other ⟨"EXAMPLE.COM.", 2, [1, 3600]⟩ [2]

/-- An A record of `example.com.`. -/
def demoA : RR := .Other ⟨"example.com.", 1, [1, 3600]⟩ [192, 0, 2, 1]

/-- A signature over the NS records of `example.com.`, made with key 2222. -/
def demoSig : RR_RRSIG :=
  ⟨⟨"example.com.", TypeRRSIG, [1, 3600]⟩, 2, 2222, "example.com.", "c2lnbmF0dXJl", [8, 2]⟩

/-- A key of `example.com.` with tag 1111. -/
def demoKey1111 : RR_DNSKEY := ⟨⟨"example.com.", TypeDNSKEY, [1, 3600]⟩, "a2V5", [1111]⟩

/-- An answer section with two NS records, an A record and one signature. -/
def demoSection : List RR := [demoNS, demoA, .RRSIG demoSig, demoNS2]

/-- A message with identifier `id`, truncation flag `tc` and answer `answer`. -/
def demoMsg (id : Nat) (tc : Bool) (answer : List RR) : Msg :=
  ⟨⟨id, tc, false, false, false, true⟩, [⟨"example.com.", 2, 1⟩], answer, [], [], 120⟩

/-- A handler configuration with fallback on and nothing else. -/
def demoCfg : Config := ⟨true, false, false, false, "192.0.2.53:53", none, false⟩

/-- A network whose every reply is a truncated response with identifier 7. -/
def truncNet : Nat → Reply := fun _ => .ok (demoMsg 7 true []) 1500

/-! ## Theorems -/

/-! ### Splitting -/

theorem cutAt_eq_none {sep : Char} {s : List Char} (h : sep ∉ s) : cutAt sep s = none := by
  induction s with
  | nil => rfl
  | cons c cs ih =>
    have hc : c ≠ sep := fun e => h (by simp [e])
    have hcs : sep ∉ cs := fun m => h (List.mem_cons_of_mem _ m)
    simp [cutAt, hc, ih hcs]

theorem cutAt_append {sep : Char} {a : List Char} (b : List Char) (h : sep ∉ a) :
    cutAt sep (a ++ sep :: b) = some (a, b) := by
  induction a with
  | nil => simp [cutAt]
  | cons c cs ih =>
    have hc : c ≠ sep := fun e => h (by simp [e])
    have hcs : sep ∉ cs := fun m => h (List.mem_cons_of_mem _ m)
    simp [cutAt, hc, ih hcs]

theorem cutAt_eq_some {sep : Char} {s a b : List Char} (h : cutAt sep s = some (a, b)) :
    s = a ++ sep :: b ∧ sep ∉ a := by
  induction s generalizing a b with
  | nil => simp [cutAt] at h
  | cons c cs ih =>
    unfold cutAt at h
    split at h
    · next hc =>
      simp only [Option.some.injEq, Prod.mk.injEq] at h
      obtain ⟨rfl, rfl⟩ := h
      simp [hc]
    · next hc =>
      cases hr : cutAt sep cs with
      | none => simp [hr] at h
      | some p =>
        obtain ⟨a1, b1⟩ := p
        simp only [hr, Option.some.injEq, Prod.mk.injEq] at h
        obtain ⟨rfl, rfl⟩ := h
        obtain ⟨h1, h2⟩ := ih hr
        refine ⟨by simp [h1], ?_⟩
        intro hm
        rcases List.mem_cons.1 hm with e | m
        · exact hc e.symm
        · exact h2 m

theorem exists_cut_of_count_pos (sep : Char) (s : List Char) (h : 0 < s.count sep) :
    ∃ a b, s = a ++ sep :: b ∧ sep ∉ a := by
  have hm : sep ∈ s := List.count_pos_iff.1 h
  cases hr : cutAt sep s with
  | none =>
    exfalso
    induction s with
    | nil => simp at hm
    | cons c cs ih =>
      unfold cutAt at hr
      split at hr
      · simp at hr
      · next hc =>
        cases hr2 : cutAt sep cs with
        | none =>
          rcases List.mem_cons.1 hm with e | m
          · exact hc e.symm
          · exact ih (List.count_pos_iff.2 m) m hr2
        | some p => simp [hr2] at hr
  | some p => exact ⟨p.1, p.2, cutAt_eq_some hr⟩

theorem splitN_three_two {a b : List Char} (ha : ':' ∉ a) (hb : ':' ∉ b) :
    splitN ':' 3 (a ++ ':' :: b) = [a, b] := by
  simp [splitN, cutAt_append b ha, cutAt_eq_none hb]

theorem splitN_three_three {a b : List Char} (c : List Char) (ha : ':' ∉ a) (hb : ':' ∉ b) :
    splitN ':' 3 (a ++ ':' :: (b ++ ':' :: c)) = [a, b, c] := by
  simp [splitN, cutAt_append _ ha, cutAt_append c hb]

theorem splitN_three_one {s : List Char} (h : ':' ∉ s) : splitN ':' 3 s = [s] := by
  simp [splitN, cutAt_eq_none h]

/-! ### TSIG key parsing -/

theorem tsigKeyParse_one {s : String} (h : ':' ∉ s.data) :
    tsigKeyParse s = ("", "", "", false) := by
  simp [tsigKeyParse, SplitN, splitN_three_one h]

theorem tsigKeyParse_two {s : String} {a b : List Char} (h : splitN ':' 3 s.data = [a, b]) :
    tsigKeyParse s = ("hmac-md5.sig-alg.reg.int.", String.mk a, String.mk b, true) := by
  simp [tsigKeyParse, SplitN, h]

theorem tsigKeyParse_three {s : String} {a b c : List Char}
    (h : splitN ':' 3 s.data = [a, b, c]) :
    tsigKeyParse s =
      if String.mk a = "hmac-md5" then
        ("hmac-md5.sig-alg.reg.int.", String.mk a, String.mk b, true)
      else if String.mk a = "hmac-sha1" then ("hmac-sha1.", String.mk b, String.mk c, true)
      else if String.mk a = "hmac-sha256" then ("hmac-sha256.", String.mk b, String.mk c, true)
      else ("", "", "", false) := by
  simp [tsigKeyParse, SplitN, h]

theorem splitN_three_of_two_colons (a rest : List Char) (ha : ':' ∉ a) (hr : ':' ∈ rest) :
    ∃ b c, splitN ':' 3 (a ++ ':' :: rest) = [a, b, c] ∧ rest = b ++ ':' :: c ∧
      ':' ∉ b := by
  obtain ⟨b, c, hbc, hb⟩ := exists_cut_of_count_pos ':' rest (List.count_pos_iff.2 hr)
  exact ⟨b, c, by rw [hbc]; exact splitN_three_three c ha hb, hbc, hb⟩

theorem splitN_three_of_count_one {s : List Char} (h : s.count ':' = 1) :
    ∃ a b, splitN ':' 3 s = [a, b] := by
  obtain ⟨a, b, hs, ha⟩ := exists_cut_of_count_pos ':' s (by omega)
  have hb : ':' ∉ b := by
    intro hm
    have h1 : 0 < b.count ':' := List.count_pos_iff.2 hm
    have h2 : a.count ':' = 0 := List.count_eq_zero.2 ha
    rw [hs, List.count_append, List.count_cons_self] at h
    omega
  exact ⟨a, b, by rw [hs]; exact splitN_three_two ha hb⟩

/-- C1: `tsigKeyParse` resolves the algorithm as stated.  A spec with exactly
one `':'` succeeds with algorithm `hmac-md5.sig-alg.reg.int.`; a spec
`hmac-sha256:name:secret` succeeds with algorithm `hmac-sha256.`; a spec with
three parts whose first segment is none of `hmac-md5`, `hmac-sha1`,
`hmac-sha256` fails (all results zero, `ok = false`), and so does a spec with
no `':'`. -/
theorem tsigKeyParse_algorithm :
    (∀ s : String, s.data.count ':' = 1 →
      (tsigKeyParse s).1 = "hmac-md5.sig-alg.reg.int." ∧ (tsigKeyParse s).2.2.2 = true) ∧
    (∀ name secret : String,
      (tsigKeyParse ("hmac-sha256:" ++ name ++ ":" ++ secret)).1 = "hmac-sha256." ∧
      (tsigKeyParse ("hmac-sha256:" ++ name ++ ":" ++ secret)).2.2.2 = true) ∧
    (∀ a b c : String, ':' ∉ a.data →
      a ≠ "hmac-md5" → a ≠ "hmac-sha1" → a ≠ "hmac-sha256" →
      tsigKeyParse (a ++ ":" ++ b ++ ":" ++ c) = ("", "", "", false)) ∧
    (∀ s : String, ':' ∉ s.data → tsigKeyParse s = ("", "", "", false)) := by
  refine ⟨?_, ?_, ?_, fun s h => tsigKeyParse_one h⟩
  · intro s h
    obtain ⟨a, b, hab⟩ := splitN_three_of_count_one h
    simp [tsigKeyParse_two hab]
  · intro name secret
    have hd : ("hmac-sha256:" ++ name ++ ":" ++ secret).data =
        "hmac-sha256".data ++ ':' :: (name.data ++ ':' :: secret.data) := by
      simp [String.data_append]
    obtain ⟨b, c, hs, -, -⟩ := splitN_three_of_two_colons
      "hmac-sha256".data (name.data ++ ':' :: secret.data) (by decide) (by simp)
    rw [← hd] at hs
    rw [tsigKeyParse_three hs]
    have e : String.mk "hmac-sha256".data = "hmac-sha256" := rfl
    have n1 : ("hmac-sha256" : String) ≠ "hmac-md5" := by decide
    have n2 : ("hmac-sha256" : String) ≠ "hmac-sha1" := by decide
    rw [e, if_neg n1, if_neg n2, if_pos rfl]
    exact ⟨rfl, rfl⟩
  · intro a b c ha h1 h2 h3
    have hd : (a ++ ":" ++ b ++ ":" ++ c).data =
        a.data ++ ':' :: (b.data ++ ':' :: c.data) := by
      simp [String.data_append]
    obtain ⟨b1, c1, hs, -, -⟩ := splitN_three_of_two_colons
      a.data (b.data ++ ':' :: c.data) ha (by simp)
    rw [← hd] at hs
    rw [tsigKeyParse_three hs]
    have e : String.mk a.data = a := rfl
    simp [e, h1, h2, h3]

/-- Witness for C1: one concrete spec of each of the four shapes. -/
theorem tsigKeyParse_algorithm_witness :
    ((tsigKeyParse "key.example.:c2VjcmV0").1 = "hmac-md5.sig-alg.reg.int." ∧
      (tsigKeyParse "key.example.:c2VjcmV0").2.2.2 = true) ∧
    ((tsigKeyParse ("hmac-sha256:" ++ "key.example." ++ ":" ++ "c2VjcmV0")).1 = "hmac-sha256." ∧
      (tsigKeyParse ("hmac-sha256:" ++ "key.example." ++ ":" ++ "c2VjcmV0")).2.2.2 = true) ∧
    tsigKeyParse ("hmac-sha512" ++ ":" ++ "key.example." ++ ":" ++ "c2VjcmV0") =
      ("", "", "", false) ∧
    tsigKeyParse "key.example." = ("", "", "", false) :=
  ⟨tsigKeyParse_algorithm.1 "key.example.:c2VjcmV0" (by decide),
   tsigKeyParse_algorithm.2.1 "key.example." "c2VjcmV0",
   tsigKeyParse_algorithm.2.2.1 "hmac-sha512" "key.example." "c2VjcmV0"
     (by decide) (by decide) (by decide) (by decide),
   tsigKeyParse_algorithm.2.2.2 "key.example." (by decide)⟩

theorem tsigKeyParse_three_part (a name secret : String)
    (ha : ':' ∉ a.data) (hn : ':' ∉ name.data) :
    tsigKeyParse (a ++ ":" ++ name ++ ":" ++ secret) =
      if a = "hmac-md5" then ("hmac-md5.sig-alg.reg.int.", a, name, true)
      else if a = "hmac-sha1" then ("hmac-sha1.", name, secret, true)
      else if a = "hmac-sha256" then ("hmac-sha256.", name, secret, true)
      else ("", "", "", false) := by
  have hd : (a ++ ":" ++ name ++ ":" ++ secret).data =
      a.data ++ ':' :: (name.data ++ ':' :: secret.data) := by
    simp [String.data_append]
  have hs := splitN_three_three secret.data ha hn
  rw [← hd] at hs
  rw [tsigKeyParse_three hs]

/-- C2 (the code at the failing input): for `hmac-md5:key.example.:c2VjcmV0`
the parse succeeds, but the key name returned is the first segment `hmac-md5`
and the secret returned is the second segment `key.example.`; the third
segment is dropped.  The two sibling algorithms return the second and third
segments of the same spec. -/
theorem tsigKeyParse_md5_three_part :
    tsigKeyParse "hmac-md5:key.example.:c2VjcmV0" =
      ("hmac-md5.sig-alg.reg.int.", "hmac-md5", "key.example.", true) ∧
    tsigKeyParse "hmac-sha1:key.example.:c2VjcmV0" =
      ("hmac-sha1.", "key.example.", "c2VjcmV0", true) ∧
    tsigKeyParse "hmac-sha256:key.example.:c2VjcmV0" =
      ("hmac-sha256.", "key.example.", "c2VjcmV0", true) := by
  decide

/-! ### Endpoint normalisation -/

theorem parseIPv4_head {c : Char} {cs : List Char} (h : c = '[') :
    parseIPv4 (c :: cs) = none := by
  subst h
  simp [parseIPv4, parseOctets, dtoi]

theorem parseIPv6_head {c : Char} {cs : List Char} (h : c = '[') :
    parseIPv6 (c :: cs) = none := by
  subst h
  simp [parseIPv6, parseIPv6Loop, xtoi]

theorem ParseIP_head {L : String} {ip : IP} (h : ParseIP L = some ip) :
    ∃ c cs, L.data = c :: cs ∧ c ≠ '[' := by
  cases hd : L.data with
  | nil =>
    exfalso
    simp [ParseIP, hd, parseIPv4, parseOctets, parseIPv6, parseIPv6Loop, xtoi] at h
  | cons c cs =>
    refine ⟨c, cs, rfl, ?_⟩
    intro hc
    simp [ParseIP, hd, parseIPv4_head hc, parseIPv6_head hc] at h

/-- What the normalisation does with a token that parses as an address, given
bare or in one pair of brackets: the port is appended to the literal itself
when `To4` accepts the address, to the bracketed literal otherwise. -/
theorem endpoint_literal (L : String) (port : Int) (ip : IP) (h : ParseIP L = some ip) :
    endpoint ("@" ++ L) port =
      some (if (To4 ip).isSome then L ++ ":" ++ Itoa port
        else if (To16 ip).isSome then "[" ++ L ++ "]:" ++ Itoa port else L) ∧
    endpoint ("@[" ++ L ++ "]") port =
      some (if (To4 ip).isSome then L ++ ":" ++ Itoa port
        else if (To16 ip).isSome then "[" ++ L ++ "]:" ++ Itoa port else L) := by
  obtain ⟨c, cs, hd, hc⟩ := ParseIP_head h
  have hL : String.mk (c :: cs) = L := by rw [← hd]
  constructor
  · have e : ("@" ++ L).data = '@' :: c :: cs := by simp [String.data_append, hd]
    unfold endpoint
    simp only [e, hc, false_and, if_false, hL, h]
    split <;> [rfl; (split <;> rfl)]
  · have e : ("@[" ++ L ++ "]").data = '@' :: '[' :: (c :: cs ++ [']']) := by
      simp [String.data_append, hd]
    have e1 : ('[' :: (c :: cs ++ [']'])).getLast? = some ']' := by
      have : '[' :: (c :: cs ++ [']']) = ('[' :: c :: cs) ++ [']'] := by simp
      rw [this, List.getLast?_concat]
    have e2 : (('[' :: (c :: cs ++ [']'])).drop 1).take
        (('[' :: (c :: cs ++ [']'])).length - 2) = c :: cs := by
      simp
    unfold endpoint
    simp only [e, e1, e2, and_self, if_true, hL, h]
    split <;> [rfl; (split <;> rfl)]

/-- C3 (the code at the failing input): `::ffff:1.2.3.4` is an IPv6 literal that
`ParseIP` accepts and `To4` recognises as an IPv4 address, so the
normalisation takes the IPv4 branch and appends the port without brackets,
whether the literal came bare, written in hexadecimal groups, or in brackets
(which are stripped and not added again); that output does not split back into
host and port.  Other IPv6 literals are bracketed once, an IPv4 literal gets
the port appended, and those outputs split back into the literal and the
port. -/
theorem endpoint_mapped_literal :
    ParseIP "::ffff:1.2.3.4" = some [0, 0, 0, 0, 0, 0, 0, 0, 0, 0, 0xff, 0xff, 1, 2, 3, 4] ∧
    To4 [0, 0, 0, 0, 0, 0, 0, 0, 0, 0, 0xff, 0xff, 1, 2, 3, 4] = some [1, 2, 3, 4] ∧
    endpoint "@::ffff:1.2.3.4" 53 = some "::ffff:1.2.3.4:53" ∧
    endpoint "@::ffff:102:304" 53 = some "::ffff:102:304:53" ∧
    endpoint "@[::ffff:1.2.3.4]" 53 = some "::ffff:1.2.3.4:53" ∧
    SplitHostPort "::ffff:1.2.3.4:53" = none ∧
    SplitHostPort "::ffff:102:304:53" = none ∧
    endpoint "@2001:db8::1" 53 = some "[2001:db8::1]:53" ∧
    endpoint "@[2001:db8::1]" 53 = some "[2001:db8::1]:53" ∧
    SplitHostPort "[2001:db8::1]:53" = some ("2001:db8::1", "53") ∧
    endpoint "@192.0.2.1" 53 = some "192.0.2.1:53" ∧
    SplitHostPort "192.0.2.1:53" = some ("192.0.2.1", "53") := by
  decide

/-! ### Redaction filter -/

/-- C8: the redaction filter applied twice is the redaction filter applied
once, for every record (DS, DNSKEY, RRSIG, NSEC3 with a type bitmap of any
length, or any other record) and for every message. -/
theorem shortRR_shortMsg_idempotent :
    (∀ r : RR, shortRR (shortRR r) = shortRR r) ∧
    (∀ m : Msg, shortMsg (shortMsg m) = shortMsg m) := by
  have hrr : ∀ r : RR, shortRR (shortRR r) = shortRR r := by
    intro r
    cases r with
    | NSEC3 t =>
      by_cases h : t.TypeBitMap.length > 5
      · have h4 : ¬ ((t.TypeBitMap.drop 1).take 4).length > 5 := by
          simp only [List.length_take, List.length_drop]
          omega
        simp [shortRR, h, h4]
      · simp [shortRR, h]
    | _ => simp [shortRR]
  refine ⟨hrr, ?_⟩
  intro m
  simp [shortMsg, Function.comp_def, hrr]

/-! ### Record sets -/

theorem foldl_append_filter {α : Type} (p : α → Prop) [DecidablePred p] (l acc : List α) :
    l.foldl (fun l1 x => if p x then l1 ++ [x] else l1) acc
      = acc ++ l.filter (fun x => decide (p x)) := by
  induction l generalizing acc with
  | nil => simp
  | cons x xs ih =>
    by_cases h : p x
    · simp [List.foldl_cons, h, ih]
    · simp [List.foldl_cons, h, ih]

theorem getRRset_eq_filter (lib : Lib) (l : List RR) (name : String) (t : Nat) :
    getRRset lib l name t =
      l.filter (fun rr =>
        decide (lib.ToLower rr.Header.Name = lib.ToLower name ∧ rr.Header.Rrtype = t)) := by
  unfold getRRset
  rw [foldl_append_filter
    (fun rr : RR => lib.ToLower rr.Header.Name = lib.ToLower name ∧ rr.Header.Rrtype = t)]
  simp

theorem sectionLoop_verify (lib : Lib) (dnskey : Option RR_DNSKEY) (net : Nat → Reply)
    (server : String) (tcp : Bool) (set rest : List RR) (k : Nat)
    (sig : RR_RRSIG) (key : RR_DNSKEY) (rrset : List RR)
    (h : Event.verify sig key rrset ∈ (sectionLoop lib dnskey net server tcp set rest k).trace) :
    rrset = getRRset lib set sig.Hdr.Name sig.TypeCovered ∧ RR.RRSIG sig ∈ rest := by
  induction rest generalizing k with
  | nil => simp [sectionLoop] at h
  | cons rr rest ih =>
    unfold sectionLoop at h
    split at h
    · cases rr with
      | RRSIG s =>
        simp only at h
        split at h
        · simp only [List.mem_append, List.mem_cons, List.mem_singleton, List.not_mem_nil,
            or_false] at h
          rcases h with (h | h) | h
          · cases dnskey <;> simp at h
          · cases h
          · obtain ⟨h1, h2⟩ := ih _ h
            exact ⟨h1, List.mem_cons_of_mem _ h2⟩
        · simp only [List.mem_append, List.mem_cons, List.mem_singleton, List.not_mem_nil,
            or_false] at h
          rcases h with (h | h) | h
          · cases dnskey <;> simp at h
          · rcases h with h | h
            · simp only [Event.verify.injEq] at h
              obtain ⟨rfl, -, rfl⟩ := h
              exact ⟨rfl, List.mem_cons_self _ _⟩
            · split at h <;> cases h
          · obtain ⟨h1, h2⟩ := ih _ h
            exact ⟨h1, List.mem_cons_of_mem _ h2⟩
      | _ => simp at h
    · obtain ⟨h1, h2⟩ := ih _ h
      exact ⟨h1, List.mem_cons_of_mem _ h2⟩

/-- C9: `getRRset` returns exactly the records of the section whose owner name
equals `name` ignoring letter case and whose type equals `t`: it is the
section filtered by the two conditions, so every returned record satisfies
both, every record satisfying both is returned with its multiplicity, and the
order of the section is kept; and every set that `sectionCheck` hands to
`Verify` is this set, built from the same section with the owner name and the
covered type of a signature of that section. -/
theorem getRRset_exact (lib : Lib) (l : List RR) (name : String) (t : Nat) :
    getRRset lib l name t =
      l.filter (fun rr =>
        decide (lib.ToLower rr.Header.Name = lib.ToLower name ∧ rr.Header.Rrtype = t)) ∧
    (∀ rr ∈ getRRset lib l name t,
      rr ∈ l ∧ lib.ToLower rr.Header.Name = lib.ToLower name ∧ rr.Header.Rrtype = t) ∧
    (∀ rr : RR, lib.ToLower rr.Header.Name = lib.ToLower name → rr.Header.Rrtype = t →
      (getRRset lib l name t).count rr = l.count rr) ∧
    (getRRset lib l name t).Sublist l ∧
    (∀ (dnskey : Option RR_DNSKEY) (net : Nat → Reply) (server : String) (tcp : Bool)
        (k : Nat) (sig : RR_RRSIG) (key : RR_DNSKEY) (rrset : List RR),
      Event.verify sig key rrset ∈ (sectionCheck lib dnskey net l server tcp k).trace →
      RR.RRSIG sig ∈ l ∧ rrset = getRRset lib l sig.Hdr.Name sig.TypeCovered) := by
  refine ⟨getRRset_eq_filter lib l name t, ?_, ?_, ?_, ?_⟩
  · intro rr h
    rw [getRRset_eq_filter, List.mem_filter] at h
    exact ⟨h.1, of_decide_eq_true h.2⟩
  · intro rr h1 h2
    rw [getRRset_eq_filter, List.count_filter]
    exact decide_eq_true ⟨h1, h2⟩
  · rw [getRRset_eq_filter]
    exact List.filter_sublist l
  · intro dnskey net server tcp k sig key rrset h
    obtain ⟨h1, h2⟩ := sectionLoop_verify lib dnskey net server tcp l l k sig key rrset h
    exact ⟨h2, h1⟩

/-- Witness for C9: the record set of the name `Example.Com.` and type NS in
the section with two NS records (one in upper case), an A record and one
signature. -/
theorem getRRset_exact_witness :
    getRRset demoLib demoSection "Example.Com." 2 = [demoNS, demoNS2] :=
  (getRRset_exact demoLib demoSection "Example.Com." 2).1.trans (by decide)

/-! ### Signature check -/

theorem findKey_eq_none (lib : Lib) (tag : Nat) (l : List RR)
    (h : ∀ key, RR.DNSKEY key ∈ l → lib.KeyTag key ≠ tag) : findKey lib tag l = none := by
  induction l with
  | nil => rfl
  | cons rr rest ih =>
    have hrest : ∀ key, RR.DNSKEY key ∈ rest → lib.KeyTag key ≠ tag :=
      fun key hm => h key (List.mem_cons_of_mem _ hm)
    cases rr with
    | DNSKEY k1 =>
      have hk : lib.KeyTag k1 ≠ tag := h k1 (List.mem_cons_self _ _)
      simp [findKey, hk, ih hrest]
    | _ => simp [findKey, ih hrest]

theorem findKey_eq_some (lib : Lib) (tag : Nat) (l : List RR) (key : RR_DNSKEY)
    (h : findKey lib tag l = some key) : lib.KeyTag key = tag ∧ RR.DNSKEY key ∈ l := by
  induction l with
  | nil => simp [findKey] at h
  | cons rr rest ih =>
    cases rr with
    | DNSKEY k1 =>
      unfold findKey at h
      split at h
      · next hk =>
        simp only [Option.some.injEq] at h
        subst h
        exact ⟨hk, List.mem_cons_self _ _⟩
      · exact ⟨(ih h).1, List.mem_cons_of_mem _ (ih h).2⟩
    | _ =>
      simp only [findKey] at h
      exact ⟨(ih h).1, List.mem_cons_of_mem _ (ih h).2⟩

theorem getKey_eq_some (lib : Lib) (reply : Reply) (tag : Nat) (key : RR_DNSKEY)
    (h : getKey lib reply tag = some key) : lib.KeyTag key = tag := by
  cases reply with
  | err e => simp [getKey] at h
  | ok r rtt => exact (findKey_eq_some lib tag r.Answer key h).1

theorem getKey_eq_none (lib : Lib) (reply : Reply) (tag : Nat)
    (h : ∀ r rtt, reply = .ok r rtt →
      ∀ key, RR.DNSKEY key ∈ r.Answer → lib.KeyTag key ≠ tag) :
    getKey lib reply tag = none := by
  cases reply with
  | err e => rfl
  | ok r rtt => exact findKey_eq_none lib tag r.Answer (h r rtt rfl)

theorem sectionLoop_skip (lib : Lib) (dnskey : Option RR_DNSKEY) (net : Nat → Reply)
    (server : String) (tcp : Bool) (set pre rest : List RR) (k : Nat)
    (h : ∀ rr ∈ pre, rr.Header.Rrtype ≠ TypeRRSIG) :
    sectionLoop lib dnskey net server tcp set (pre ++ rest) k =
      sectionLoop lib dnskey net server tcp set rest k := by
  induction pre with
  | nil => rfl
  | cons rr pre ih =>
    have h1 : rr.Header.Rrtype ≠ TypeRRSIG := h rr (List.mem_cons_self _ _)
    have h2 : ∀ x ∈ pre, x.Header.Rrtype ≠ TypeRRSIG :=
      fun x hx => h x (List.mem_cons_of_mem _ hx)
    rw [List.cons_append]
    conv_lhs => unfold sectionLoop
    rw [if_neg h1, ih h2]

theorem sectionLoop_no_sig (lib : Lib) (dnskey : Option RR_DNSKEY) (net : Nat → Reply)
    (server : String) (tcp : Bool) (set post : List RR) (k : Nat)
    (h : ∀ rr ∈ post, rr.Header.Rrtype ≠ TypeRRSIG) :
    sectionLoop lib dnskey net server tcp set post k = ⟨[], k, true⟩ := by
  have := sectionLoop_skip lib dnskey net server tcp set post [] k h
  rw [List.append_nil] at this
  rw [this, sectionLoop]

theorem sectionLoop_net_tag (lib : Lib) (net : Nat → Reply)
    (server : String) (tcp : Bool) (set rest : List RR) (k : Nat)
    (sig : RR_RRSIG) (key : RR_DNSKEY) (rrset : List RR)
    (h : Event.verify sig key rrset ∈ (sectionLoop lib none net server tcp set rest k).trace) :
    lib.KeyTag key = sig.KeyTag := by
  induction rest generalizing k with
  | nil => simp [sectionLoop] at h
  | cons rr rest ih =>
    unfold sectionLoop at h
    split at h
    · cases rr with
      | RRSIG s =>
        simp only at h
        split at h
        · simp only [List.mem_append, List.mem_cons, List.mem_singleton, List.not_mem_nil,
            or_false] at h
          rcases h with (h | h) | h
          · cases h
          · cases h
          · exact ih _ h
        · next key1 hk =>
          simp only [List.mem_append, List.mem_cons, List.mem_singleton, List.not_mem_nil,
            or_false] at h
          rcases h with (h | h) | h
          · cases h
          · rcases h with h | h
            · simp only [Event.verify.injEq] at h
              obtain ⟨rfl, rfl, -⟩ := h
              exact getKey_eq_some lib (net k) _ _ hk
            · split at h <;> cases h
          · exact ih _ h
      | _ => simp at h
    · exact ih _ h

/-- C7 (as amended): for a section with one signature record.  With no pinned
key, when the key lookup fails or no key of its answer has the tag the
signature names, the one outcome is `DNSKEY not found`, `Verify` is not called
and the check ends without a panic; and with no pinned key `Verify` is never
called with a key whose tag differs from the signature's.  A pinned key is
handed to `Verify` whatever its tag, and the outcome is then `Secure` or
`Bogus` as `Verify` decides. -/
theorem sectionCheck_one_signature (lib : Lib) (net : Nat → Reply) (server : String)
    (tcp : Bool) (k : Nat) (pre post : List RR) (sig : RR_RRSIG)
    (hpre : ∀ rr ∈ pre, rr.Header.Rrtype ≠ TypeRRSIG)
    (hpost : ∀ rr ∈ post, rr.Header.Rrtype ≠ TypeRRSIG)
    (hsig : sig.Hdr.Rrtype = TypeRRSIG) :
    ((∀ r rtt, net k = .ok r rtt →
        ∀ key, RR.DNSKEY key ∈ r.Answer → lib.KeyTag key ≠ sig.KeyTag) →
      sectionCheck lib none net (pre ++ .RRSIG sig :: post) server tcp k =
        ⟨[.keyLookup sig.SignerName (if tcp then "tcp" else "") server,
          .keyNotFound sig.SignerName sig.KeyTag], k + 1, true⟩) ∧
    (∀ (s : RR_RRSIG) (key : RR_DNSKEY) (rrset : List RR),
      Event.verify s key rrset ∈
        (sectionCheck lib none net (pre ++ .RRSIG sig :: post) server tcp k).trace →
      lib.KeyTag key = s.KeyTag) ∧
    (∀ pinned : RR_DNSKEY,
      sectionCheck lib (some pinned) net (pre ++ .RRSIG sig :: post) server tcp k =
        ⟨[.verify sig pinned
            (getRRset lib (pre ++ .RRSIG sig :: post) sig.Hdr.Name sig.TypeCovered),
          match lib.Verify sig pinned
            (getRRset lib (pre ++ .RRSIG sig :: post) sig.Hdr.Name sig.TypeCovered) with
          | some err =>
            .bogus (shortSig lib sig) pinned.Hdr.Name (lib.KeyTag pinned) "disk" err
          | none => .secure (shortSig lib sig) pinned.Hdr.Name (lib.KeyTag pinned) "disk"],
          k, true⟩) := by
  have hty : (RR.RRSIG sig).Header.Rrtype = TypeRRSIG := hsig
  refine ⟨?_, ?_, ?_⟩
  · intro hno
    have hk := getKey_eq_none lib (net k) sig.KeyTag hno
    unfold sectionCheck
    rw [sectionLoop_skip _ _ _ _ _ _ _ _ _ hpre, sectionLoop, if_pos hty]
    simp only [hk, sectionLoop_no_sig _ _ _ _ _ _ _ _ hpost]
    rfl
  · intro s key rrset h
    exact sectionLoop_net_tag lib net server tcp _ _ k s key rrset h
  · intro pinned
    unfold sectionCheck
    rw [sectionLoop_skip _ _ _ _ _ _ _ _ _ hpre, sectionLoop, if_pos hty]
    simp only [sectionLoop_no_sig _ _ _ _ _ _ _ _ hpost]
    rfl

/-- Witness for C7: the section with two NS records, an A record and one
signature made with key 2222, and a lookup whose answer holds key 1111 only. -/
theorem sectionCheck_one_signature_witness :
    sectionCheck demoLib none (fun _ => .ok (demoMsg 9 false [.DNSKEY demoKey1111]) 1200)
        ([demoNS, demoA] ++ .RRSIG demoSig :: [demoNS2]) "192.0.2.53:53" false 0 =
      ⟨[.keyLookup "example.com." "" "192.0.2.53:53", .keyNotFound "example.com." 2222],
        1, true⟩ :=
  (sectionCheck_one_signature demoLib (fun _ => .ok (demoMsg 9 false [.DNSKEY demoKey1111]) 1200)
    "192.0.2.53:53" false 0 [demoNS, demoA] [demoNS2] demoSig
    (by decide) (by decide) (by decide)).1
    (by
      intro r rtt h key hm
      cases h
      simp only [demoMsg, List.mem_singleton, RR.DNSKEY.injEq] at hm
      subst hm
      decide)

/-- Counterexample to C7 as stated: a pinned key with tag 1111 and a signature
that names key 2222.  `Verify` is called with the pinned key, and the outcome
is `Bogus` (or `Secure`, with a `Verify` that accepts every key), not
`DNSKEY not found`. -/
theorem sectionCheck_pinned_key_mismatch :
    demoLib.KeyTag demoKey1111 ≠ demoSig.KeyTag ∧
    (sectionCheck demoLib (some demoKey1111) truncNet demoSection "192.0.2.53:53" false 0).trace =
      [.verify demoSig demoKey1111 [demoNS, demoNS2],
       .bogus "example.com. RRSIG(NS)" "example.com." 1111 "disk" "dns: bad key"] ∧
    (sectionCheck lenientLib (some demoKey1111) truncNet demoSection "192.0.2.53:53" false
        0).trace =
      [.verify demoSig demoKey1111 [demoNS, demoNS2],
       .secure "example.com. RRSIG(NS)" "example.com." 1111 "disk"] := by
  decide

/-! ### The exchange completion handler -/

theorem sectionLoop_isTail (lib : Lib) (dnskey : Option RR_DNSKEY) (net : Nat → Reply)
    (server : String) (tcp : Bool) (set rest : List RR) (k : Nat) :
    ∀ e ∈ (sectionLoop lib dnskey net server tcp set rest k).trace, e.isTail = true := by
  induction rest generalizing k with
  | nil => simp [sectionLoop]
  | cons rr rest ih =>
    intro e h
    unfold sectionLoop at h
    split at h
    · cases rr with
      | RRSIG s =>
        simp only at h
        split at h
        · simp only [List.mem_append, List.mem_cons, List.mem_singleton, List.not_mem_nil,
            or_false] at h
          rcases h with (h | h) | h
          · cases dnskey with
            | none => simp at h; subst h; rfl
            | some p => simp at h
          · subst h; rfl
          · exact ih _ e h
        · simp only [List.mem_append, List.mem_cons, List.mem_singleton, List.not_mem_nil,
            or_false] at h
          rcases h with (h | h) | h
          · cases dnskey with
            | none => simp at h; subst h; rfl
            | some p => simp at h
          · rcases h with h | h
            · subst h; rfl
            · subst h; split <;> rfl
          · exact ih _ e h
      | _ =>
        simp only [List.mem_singleton] at h
        subst h; rfl
    · exact ih _ e h

theorem sigCheck_isTail (lib : Lib) (dnskey : Option RR_DNSKEY) (net : Nat → Reply)
    (r : Msg) (server : String) (tcp : Bool) (k : Nat) :
    ∀ e ∈ (sigCheck lib dnskey net r server tcp k).trace, e.isTail = true := by
  intro e h
  unfold sigCheck sectionCheck at h
  simp only at h
  split at h
  · exact sectionLoop_isTail _ _ _ _ _ _ _ _ e h
  · split at h
    · simp only [List.mem_append] at h
      rcases h with h | h <;> exact sectionLoop_isTail _ _ _ _ _ _ _ _ e h
    · simp only [List.mem_append] at h
      rcases h with (h | h) | h <;> exact sectionLoop_isTail _ _ _ _ _ _ _ _ e h

theorem conclude_isTail (lib : Lib) (cfg : Config) (net : Nat → Reply) (st : State) (k : Nat)
    (r : Msg) (rtt : Nat) :
    ∀ e ∈ (conclude lib cfg net st k r rtt).trace, e.isTail = true := by
  intro e h
  unfold conclude at h
  simp only at h
  split_ifs at h
  all_goals
    simp only [nsecCheck, ite_self, List.append_nil, List.nil_append, List.mem_append,
      List.mem_cons, List.mem_singleton, List.not_mem_nil, or_false] at h
  all_goals
    first
      | exact sigCheck_isTail _ _ _ _ _ _ _ e h
      | (rcases h with h | h | h
         · exact sigCheck_isTail _ _ _ _ _ _ _ e h
         · subst h; rfl
         · subst h; rfl)
      | (rcases h with h | h
         · subst h; rfl
         · subst h; rfl)

theorem conclude_st (lib : Lib) (cfg : Config) (net : Nat → Reply) (st : State) (k : Nat)
    (r : Msg) (rtt : Nat) : (conclude lib cfg net st k r rtt).st = st := by
  unfold conclude
  simp only
  split_ifs <;> rfl

theorem Redo_err (lib : Lib) (cfg : Config) (net : Nat → Reply) (fuel : Nat) (st : State)
    (k : Nat) (e : String) :
    Redo lib cfg net (fuel + 1) st k (.err e) = some ⟨[.printErr e], st, k⟩ := rfl

theorem Redo_mismatch (lib : Lib) (cfg : Config) (net : Nat → Reply) (fuel : Nat) (st : State)
    (k : Nat) (r : Msg) (rtt : Nat) (hid : r.MsgHdr.Id ≠ st.m.MsgHdr.Id) :
    Redo lib cfg net (fuel + 1) st k (.ok r rtt) = some ⟨[.idMismatch], st, k⟩ := by
  simp [Redo, hid]

theorem Redo_bufsize (lib : Lib) (cfg : Config) (net : Nat → Reply) (fuel : Nat) (st : State)
    (k : Nat) (r : Msg) (rtt : Nat) (hid : r.MsgHdr.Id = st.m.MsgHdr.Id)
    (htc : r.MsgHdr.Truncated = true) (hfb : cfg.fallback = true) (hnet : st.Net ≠ "tcp")
    (hd : st.dnssec = false) :
    Redo lib cfg net (fuel + 1) st k (.ok r rtt) =
      (Redo lib cfg net fuel { st with m := withOPT st.m, dnssec := true } (k + 1) (net k)).map
        (Run.after
          [.tryBufsize DefaultMsgSize, .exchange (withOPT st.m) st.Net cfg.nameserver]) := by
  simp [Redo, hid, htc, hfb, hnet, hd]

theorem Redo_tcp (lib : Lib) (cfg : Config) (net : Nat → Reply) (fuel : Nat) (st : State)
    (k : Nat) (r : Msg) (rtt : Nat) (hid : r.MsgHdr.Id = st.m.MsgHdr.Id)
    (htc : r.MsgHdr.Truncated = true) (hfb : cfg.fallback = true) (hnet : st.Net ≠ "tcp")
    (hd : st.dnssec = true) :
    Redo lib cfg net (fuel + 1) st k (.ok r rtt) =
      (Redo lib cfg net fuel { st with Net := "tcp" } (k + 1) (net k)).map
        (Run.after [.tryTCP, .exchange st.m "tcp" cfg.nameserver]) := by
  simp [Redo, hid, htc, hfb, hnet, hd]

theorem Redo_final (lib : Lib) (cfg : Config) (net : Nat → Reply) (fuel : Nat) (st : State)
    (k : Nat) (r : Msg) (rtt : Nat) (hid : r.MsgHdr.Id = st.m.MsgHdr.Id)
    (hl : ¬ (r.MsgHdr.Truncated = true ∧ cfg.fallback = true ∧ st.Net ≠ "tcp")) :
    Redo lib cfg net (fuel + 1) st k (.ok r rtt) =
      some ((conclude lib cfg net st k r rtt).after
        (if r.MsgHdr.Truncated = true ∧ ¬ cfg.fallback = true then [.truncated] else [])) := by
  simp only [Redo, hid, ne_eq, not_true_eq_false, if_false, hl]

theorem no_ladder_of {cfg : Config} {st : State} {r : Msg} {rtt : Nat}
    (h : (Reply.ok r rtt).truncatedFor st.m = false ∨ cfg.fallback = false ∨ st.Net = "tcp")
    (hid : r.MsgHdr.Id = st.m.MsgHdr.Id) :
    ¬ (r.MsgHdr.Truncated = true ∧ cfg.fallback = true ∧ st.Net ≠ "tcp") := by
  rintro ⟨h1, h2, h3⟩
  rcases h with h | h | h
  · simp [Reply.truncatedFor, hid, h1] at h
  · simp [h2] at h
  · exact h3 h

theorem Redo_stop (lib : Lib) (cfg : Config) (net : Nat → Reply) (st : State)
    (k : Nat) (reply : Reply)
    (h : reply.truncatedFor st.m = false ∨ cfg.fallback = false ∨ st.Net = "tcp") :
    ∃ run, (∀ f, Redo lib cfg net (f + 1) st k reply = some run) ∧ run.st = st ∧
      ∀ e ∈ run.trace, e.isReissue = false ∧ e.isBufsize = false ∧ e ≠ .tryTCP := by
  cases reply with
  | err e =>
    refine ⟨⟨[.printErr e], st, k⟩, fun _ => rfl, rfl, ?_⟩
    intro x hx
    simp only [List.mem_singleton] at hx
    subst hx
    exact ⟨rfl, rfl, by simp⟩
  | ok r rtt =>
    by_cases hid : r.MsgHdr.Id = st.m.MsgHdr.Id
    · have hl := no_ladder_of h hid
      refine ⟨_, fun f => Redo_final lib cfg net f st k r rtt hid hl, ?_, ?_⟩
      · simp [Run.after, conclude_st]
      · intro x hx
        simp only [Run.after, List.mem_append] at hx
        rcases hx with hx | hx
        · split at hx
          · simp only [List.mem_singleton] at hx
            subst hx
            exact ⟨rfl, rfl, by simp⟩
          · simp at hx
        · have ht := conclude_isTail _ _ _ _ _ _ _ x hx
          cases x <;> simp_all [Event.isTail, Event.isReissue, Event.isBufsize]
    · refine ⟨⟨[.idMismatch], st, k⟩, fun f => Redo_mismatch lib cfg net f st k r rtt hid,
        rfl, ?_⟩
      intro x hx
      simp only [List.mem_singleton] at hx
      subst hx
      exact ⟨rfl, rfl, by simp⟩

theorem Redo_total (lib : Lib) (cfg : Config) (net : Nat → Reply) (fuel : Nat) (st : State)
    (k : Nat) (reply : Reply) (h : st.rungs < fuel) :
    ∃ run, Redo lib cfg net fuel st k reply = some run ∧
      ∀ fuel1, st.rungs < fuel1 → Redo lib cfg net fuel1 st k reply = some run := by
  induction fuel generalizing st k reply with
  | zero => omega
  | succ fuel ih =>
    by_cases hl : reply.truncatedFor st.m = false ∨ cfg.fallback = false ∨ st.Net = "tcp"
    · obtain ⟨run, hrun, -, -⟩ := Redo_stop lib cfg net st k reply hl
      refine ⟨run, hrun fuel, ?_⟩
      intro fuel1 h1
      obtain ⟨f, rfl⟩ : ∃ f, fuel1 = f + 1 := ⟨fuel1 - 1, by omega⟩
      exact hrun f
    · simp only [not_or, Bool.not_eq_false] at hl
      obtain ⟨h1, h2, h3⟩ := hl
      cases reply with
      | err e => simp [Reply.truncatedFor] at h1
      | ok r rtt =>
        simp only [Reply.truncatedFor, Bool.and_eq_true, decide_eq_true_eq] at h1
        obtain ⟨hid, htc⟩ := h1
        by_cases hd : st.dnssec = true
        · have hr : st.rungs = 1 := by simp [State.rungs, h3, hd]
          have hr1 : State.rungs { st with Net := "tcp" } = 0 := by simp [State.rungs]
          obtain ⟨run, hrun, hall⟩ := ih { st with Net := "tcp" } (k + 1) (net k) (by omega)
          refine ⟨run.after [.tryTCP, .exchange st.m "tcp" cfg.nameserver], ?_, ?_⟩
          · rw [Redo_tcp lib cfg net fuel st k r rtt hid htc h2 h3 hd, hrun, Option.map_some']
          · intro fuel1 hf
            obtain ⟨f, rfl⟩ : ∃ f, fuel1 = f + 1 := ⟨fuel1 - 1, by omega⟩
            rw [Redo_tcp lib cfg net f st k r rtt hid htc h2 h3 hd, hall f (by omega),
              Option.map_some']
        · have hd0 : st.dnssec = false := by simpa using hd
          have hr : st.rungs = 2 := by simp [State.rungs, h3, hd0]
          have hr1 : State.rungs { st with m := withOPT st.m, dnssec := true } = 1 := by
            simp [State.rungs, h3]
          obtain ⟨run, hrun, hall⟩ :=
            ih { st with m := withOPT st.m, dnssec := true } (k + 1) (net k) (by omega)
          refine ⟨run.after [.tryBufsize DefaultMsgSize,
            .exchange (withOPT st.m) st.Net cfg.nameserver], ?_, ?_⟩
          · rw [Redo_bufsize lib cfg net fuel st k r rtt hid htc h2 h3 hd0, hrun,
              Option.map_some']
          · intro fuel1 hf
            obtain ⟨f, rfl⟩ : ∃ f, fuel1 = f + 1 := ⟨fuel1 - 1, by omega⟩
            rw [Redo_bufsize lib cfg net f st k r rtt hid htc h2 h3 hd0, hall f (by omega),
              Option.map_some']

/-- The handler always returns: three passes through `Redo` are enough for
every state, configuration, network and first reply, and more fuel gives the
same run. -/
theorem handler_total (lib : Lib) (cfg : Config) (net : Nat → Reply) (st : State) (k : Nat)
    (reply : Reply) :
    (∃ run, handler lib cfg net st k reply = some run) ∧
    ∀ fuel, 3 ≤ fuel →
      Redo lib cfg net fuel st k reply = Redo lib cfg net 3 st k reply := by
  have hr : st.rungs < 3 := by
    unfold State.rungs
    split_ifs <;> omega
  obtain ⟨run, hrun, hall⟩ := Redo_total lib cfg net 3 st k reply hr
  refine ⟨⟨if cfg.last then { run with trace := run.trace ++ [.exit] } else run, ?_⟩, ?_⟩
  · simp only [handler, hrun, Option.map_some']
  intro fuel hf
  rw [hrun, hall fuel (by omega)]

/-- C4: a response whose wire identifier differs from the request's makes the
handler report `Id mismatch` and stop, in whatever state the response is
examined: the rest of the run is that one event, the state is left as it is and
the network is not used again.  This holds for the initial response and for the
response to either re-issue, so the whole run then holds the steps of the
ladder taken so far and `Id mismatch`: no further re-issue, no `Verify`, no
redaction and no response printed. -/
theorem id_mismatch_stops (lib : Lib) (cfg : Config) (net : Nat → Reply) :
    (∀ (fuel : Nat) (st : State) (k : Nat) (r : Msg) (rtt : Nat),
      r.MsgHdr.Id ≠ st.m.MsgHdr.Id →
      Redo lib cfg net (fuel + 1) st k (.ok r rtt) = some ⟨[.idMismatch], st, k⟩) ∧
    (∀ (st : State) (k : Nat) (r : Msg) (rtt : Nat),
      r.MsgHdr.Id ≠ st.m.MsgHdr.Id →
      handler lib cfg net st k (.ok r rtt) =
        some ⟨if cfg.last then [.idMismatch, .exit] else [.idMismatch], st, k⟩) ∧
    (∀ (st : State) (k : Nat) (r : Msg) (rtt : Nat) (r2 : Msg) (rtt2 : Nat),
      r.MsgHdr.Id = st.m.MsgHdr.Id → r.MsgHdr.Truncated = true → cfg.fallback = true →
      st.Net ≠ "tcp" → st.dnssec = false →
      net k = .ok r2 rtt2 → r2.MsgHdr.Id ≠ st.m.MsgHdr.Id →
      Redo lib cfg net 3 st k (.ok r rtt) =
        some ⟨[.tryBufsize DefaultMsgSize, .exchange (withOPT st.m) st.Net cfg.nameserver,
            .idMismatch],
          { st with m := withOPT st.m, dnssec := true }, k + 1⟩) ∧
    (∀ (st : State) (k : Nat) (r : Msg) (rtt : Nat) (r2 : Msg) (rtt2 : Nat),
      r.MsgHdr.Id = st.m.MsgHdr.Id → r.MsgHdr.Truncated = true → cfg.fallback = true →
      st.Net ≠ "tcp" → st.dnssec = true →
      net k = .ok r2 rtt2 → r2.MsgHdr.Id ≠ st.m.MsgHdr.Id →
      Redo lib cfg net 3 st k (.ok r rtt) =
        some ⟨[.tryTCP, .exchange st.m "tcp" cfg.nameserver, .idMismatch],
          { st with Net := "tcp" }, k + 1⟩) ∧
    (∀ (st : State) (k : Nat) (r : Msg) (rtt : Nat) (r2 : Msg) (rtt2 : Nat) (r3 : Msg)
        (rtt3 : Nat),
      r.MsgHdr.Id = st.m.MsgHdr.Id → r.MsgHdr.Truncated = true → cfg.fallback = true →
      st.Net ≠ "tcp" → st.dnssec = false →
      net k = .ok r2 rtt2 → r2.MsgHdr.Id = st.m.MsgHdr.Id → r2.MsgHdr.Truncated = true →
      net (k + 1) = .ok r3 rtt3 → r3.MsgHdr.Id ≠ st.m.MsgHdr.Id →
      Redo lib cfg net 3 st k (.ok r rtt) =
        some ⟨[.tryBufsize DefaultMsgSize, .exchange (withOPT st.m) st.Net cfg.nameserver,
            .tryTCP, .exchange (withOPT st.m) "tcp" cfg.nameserver, .idMismatch],
          ⟨"tcp", true, withOPT st.m⟩, k + 2⟩) := by
  refine ⟨?_, ?_, ?_, ?_, ?_⟩
  · intro fuel st k r rtt h
    exact Redo_mismatch lib cfg net fuel st k r rtt h
  · intro st k r rtt h
    rw [handler, Redo_mismatch lib cfg net 2 st k r rtt h]
    by_cases hl : cfg.last = true <;> simp [hl]
  · intro st k r rtt r2 rtt2 hid htc hfb hnet hd hk h2
    rw [Redo_bufsize lib cfg net 2 st k r rtt hid htc hfb hnet hd, hk,
      Redo_mismatch lib cfg net 1 ⟨st.Net, true, withOPT st.m⟩ (k + 1) r2 rtt2 h2]
    rfl
  · intro st k r rtt r2 rtt2 hid htc hfb hnet hd hk h2
    rw [Redo_tcp lib cfg net 2 st k r rtt hid htc hfb hnet hd, hk,
      Redo_mismatch lib cfg net 1 ⟨"tcp", st.dnssec, st.m⟩ (k + 1) r2 rtt2 h2]
    rfl
  · intro st k r rtt r2 rtt2 r3 rtt3 hid htc hfb hnet hd hk h2 htc2 hk3 h3
    rw [Redo_bufsize lib cfg net 2 st k r rtt hid htc hfb hnet hd, hk,
      Redo_tcp lib cfg net 1 ⟨st.Net, true, withOPT st.m⟩ (k + 1) r2 rtt2 h2 htc2 hfb hnet rfl,
      hk3, Redo_mismatch lib cfg net 0 ⟨"tcp", true, withOPT st.m⟩ (k + 1 + 1) r3 rtt3 h3]
    rfl

/-- Witness for C4: a truncated first response, then a response to the
re-issue whose identifier is 8 where the request has 7. -/
theorem id_mismatch_stops_witness :
    Redo demoLib demoCfg (fun _ => .ok (demoMsg 8 false [demoNS]) 900) 3
        ⟨"udp", false, demoMsg 7 false []⟩ 0 (.ok (demoMsg 7 true []) 1500) =
      some ⟨[.tryBufsize DefaultMsgSize,
          .exchange (withOPT (demoMsg 7 false [])) "udp" "192.0.2.53:53", .idMismatch],
        ⟨"udp", true, withOPT (demoMsg 7 false [])⟩, 1⟩ :=
  (id_mismatch_stops demoLib demoCfg (fun _ => .ok (demoMsg 8 false [demoNS]) 900)).2.2.1
    ⟨"udp", false, demoMsg 7 false []⟩ 0 (demoMsg 7 true []) 1500 (demoMsg 8 false [demoNS]) 900
    (by decide) (by decide) (by decide) (by decide) (by decide) rfl (by decide)

theorem attachEdns_dnssec (dnssec nsid : Bool) (client : String) (m m1 : Msg)
    (h : attachEdns dnssec nsid client m = some m1) (hd : dnssec = true) :
    ∃ rr ∈ m1.Extra, rr.isOPT = true := by
  subst hd
  unfold attachEdns at h
  simp only [true_or, if_true] at h
  split at h
  · split at h
    · cases h
    · simp only [Option.some.injEq] at h
      subst h
      exact ⟨_, List.mem_append_right _ (List.mem_singleton_self _), rfl⟩
  · simp only [Option.some.injEq] at h
    subst h
    exact ⟨_, List.mem_append_right _ (List.mem_singleton_self _), rfl⟩

/-- The handler keeps the relation between the flag `*dnssec` and the request:
when the flag is set at the end of a run, the request holds an OPT record. -/
theorem Redo_invariant (lib : Lib) (cfg : Config) (net : Nat → Reply) (fuel : Nat) (st : State)
    (k : Nat) (reply : Reply) (run : Run)
    (h : Redo lib cfg net fuel st k reply = some run)
    (hinv : st.dnssec = true → ∃ rr ∈ st.m.Extra, rr.isOPT = true) :
    run.st.dnssec = true → ∃ rr ∈ run.st.m.Extra, rr.isOPT = true := by
  induction fuel generalizing st k reply run with
  | zero => simp [Redo] at h
  | succ fuel ih =>
    cases reply with
    | err e =>
      rw [Redo_err] at h
      cases h
      exact hinv
    | ok r rtt =>
      by_cases hid : r.MsgHdr.Id = st.m.MsgHdr.Id
      · by_cases hl : r.MsgHdr.Truncated = true ∧ cfg.fallback = true ∧ st.Net ≠ "tcp"
        · obtain ⟨htc, hfb, hnet⟩ := hl
          cases hd : st.dnssec with
          | false =>
            rw [Redo_bufsize lib cfg net fuel st k r rtt hid htc hfb hnet hd] at h
            cases hr : Redo lib cfg net fuel { st with m := withOPT st.m, dnssec := true }
                (k + 1) (net k) with
            | none => simp [hr] at h
            | some run1 =>
              simp only [hr, Option.map_some', Option.some.injEq] at h
              subst h
              exact ih _ _ _ run1 hr
                (fun _ => ⟨_, List.mem_append_right _ (List.mem_singleton_self _), rfl⟩)
          | true =>
            rw [Redo_tcp lib cfg net fuel st k r rtt hid htc hfb hnet hd] at h
            cases hr : Redo lib cfg net fuel { st with Net := "tcp" } (k + 1) (net k) with
            | none => simp [hr] at h
            | some run1 =>
              simp only [hr, Option.map_some', Option.some.injEq] at h
              subst h
              exact ih _ _ _ run1 hr hinv
        · rw [Redo_final lib cfg net fuel st k r rtt hid hl] at h
          simp only [Option.some.injEq] at h
          subst h
          simpa [Run.after, conclude_st] using hinv
      · rw [Redo_mismatch lib cfg net fuel st k r rtt hid] at h
        cases h
        exact hinv

theorem filter_eq_nil_of {α : Type} (p : α → Bool) (l : List α)
    (h : ∀ x ∈ l, p x = false) :
    l.filter p = [] := by
  rw [List.filter_eq_nil_iff]
  intro x hx
  simp [h x hx]

/-- C5: a query sent over UDP with fallback enabled and no EDNS0 record
attached, whose response is accepted and truncated.  The handler returns, and
its run starts with the announcement of the buffer upgrade and the re-issue
over the same transport of the request with one more record; that request has
exactly one OPT record, advertising 4096 bytes.  The upgrade is not announced
again in the rest of the run, and the rest holds a re-issue exactly when the
reply to the first re-issue is again an accepted truncated response: it is
then the one re-issue over `tcp`, and the transport is `tcp` at the end;
otherwise the transport is unchanged.  (`hinv` is the relation between the
flag `*dnssec`, which the handler tests, and the record: main attaches a record
whenever the flag is set, `attachEdns_dnssec`, and the handler keeps the
relation, `Redo_invariant`.) -/
theorem buffer_upgrade_once (lib : Lib) (cfg : Config) (net : Nat → Reply) (st : State)
    (k : Nat) (r : Msg) (rtt : Nat)
    (hudp : st.Net = "udp" ∨ st.Net = "udp4" ∨ st.Net = "udp6")
    (hfb : cfg.fallback = true)
    (hopt : ∀ rr ∈ st.m.Extra, rr.isOPT = false)
    (hinv : st.dnssec = true → ∃ rr ∈ st.m.Extra, rr.isOPT = true)
    (hid : r.MsgHdr.Id = st.m.MsgHdr.Id) (htc : r.MsgHdr.Truncated = true) :
    ∃ run rest,
      handler lib cfg net st k (.ok r rtt) = some run ∧
      run.trace =
        .tryBufsize 4096 :: .exchange (withOPT st.m) st.Net cfg.nameserver :: rest ∧
      (withOPT st.m).Extra.filter RR.isOPT = [.OPT ⟨⟨".", 41, []⟩, 4096, false, []⟩] ∧
      rest.filter Event.isBufsize = [] ∧
      rest.filter Event.isReissue =
        (if (net k).truncatedFor st.m then [.exchange (withOPT st.m) "tcp" cfg.nameserver]
          else []) ∧
      run.st.Net = (if (net k).truncatedFor st.m then "tcp" else st.Net) := by
  have hnet : st.Net ≠ "tcp" := by
    rcases hudp with h | h | h <;> rw [h] <;> decide
  have hd : st.dnssec = false := by
    cases hds : st.dnssec with
    | false => rfl
    | true =>
      obtain ⟨rr, hm, ho⟩ := hinv hds
      rw [hopt rr hm] at ho
      cases ho
  have hOPT : (withOPT st.m).Extra.filter RR.isOPT =
      [.OPT ⟨⟨".", 41, []⟩, 4096, false, []⟩] := by
    simp only [withOPT, List.filter_append, filter_eq_nil_of RR.isOPT st.m.Extra hopt,
      List.nil_append]
    rfl
  have hstep := Redo_bufsize lib cfg net 2 st k r rtt hid htc hfb hnet hd
  by_cases hag : (net k).truncatedFor st.m = true
  · -- the reply to the first re-issue is truncated again: TCP
    cases hk : net k with
    | err e => rw [hk] at hag; simp [Reply.truncatedFor] at hag
    | ok r2 rtt2 =>
      rw [hk] at hag
      simp only [Reply.truncatedFor, Bool.and_eq_true, decide_eq_true_eq] at hag
      obtain ⟨hid2, htc2⟩ := hag
      obtain ⟨run3, hrun3, hst3, hev3⟩ := Redo_stop lib cfg net ⟨"tcp", true, withOPT st.m⟩
        (k + 1 + 1) (net (k + 1)) (Or.inr (Or.inr rfl))
      have h2 := Redo_tcp lib cfg net 1 ⟨st.Net, true, withOPT st.m⟩ (k + 1) r2 rtt2 hid2 htc2
        hfb hnet rfl
      rw [hrun3 0, Option.map_some'] at h2
      rw [hk, h2, Option.map_some'] at hstep
      refine ⟨if cfg.last = true then
          { trace := (Run.after [.tryBufsize DefaultMsgSize,
                .exchange (withOPT st.m) st.Net cfg.nameserver]
              (Run.after [.tryTCP, .exchange (withOPT st.m) "tcp" cfg.nameserver] run3)).trace
              ++ [.exit],
            st := run3.st, next := run3.next }
        else Run.after [.tryBufsize DefaultMsgSize,
                .exchange (withOPT st.m) st.Net cfg.nameserver]
              (Run.after [.tryTCP, .exchange (withOPT st.m) "tcp" cfg.nameserver] run3),
        Event.tryTCP :: Event.exchange (withOPT st.m) "tcp" cfg.nameserver ::
          (run3.trace ++ (if cfg.last = true then [Event.exit] else [])),
        ?_, ?_, hOPT, ?_, ?_, ?_⟩
      · simp only [handler, hstep, Option.map_some']
        rfl
      · by_cases hl : cfg.last = true <;> simp [hl, Run.after, DefaultMsgSize]
      · simp only [List.filter_cons, List.filter_append, Event.isBufsize]
        rw [filter_eq_nil_of _ _ (fun e he => (hev3 e he).2.1)]
        by_cases hl : cfg.last = true <;> simp [hl, Event.isBufsize]
      · simp only [List.filter_cons, List.filter_append, Event.isReissue]
        rw [filter_eq_nil_of _ _ (fun e he => (hev3 e he).1)]
        by_cases hl : cfg.last = true <;>
          simp [hl, Event.isReissue, Reply.truncatedFor, hid2, htc2]
      · by_cases hl : cfg.last = true <;>
          simp [hl, Run.after, hst3, Reply.truncatedFor, hid2, htc2]
  · -- otherwise the handler stops or reports after the first re-issue
    have hag0 : (net k).truncatedFor st.m = false := by simpa using hag
    obtain ⟨run2, hrun2, hst2, hev2⟩ := Redo_stop lib cfg net ⟨st.Net, true, withOPT st.m⟩
      (k + 1) (net k) (Or.inl hag0)
    rw [hrun2 1, Option.map_some'] at hstep
    refine ⟨if cfg.last = true then
        { trace := (Run.after [.tryBufsize DefaultMsgSize,
              .exchange (withOPT st.m) st.Net cfg.nameserver] run2).trace ++ [.exit],
          st := run2.st, next := run2.next }
      else Run.after [.tryBufsize DefaultMsgSize,
              .exchange (withOPT st.m) st.Net cfg.nameserver] run2,
      run2.trace ++ (if cfg.last = true then [Event.exit] else []), ?_, ?_, hOPT, ?_, ?_, ?_⟩
    · simp only [handler, hstep, Option.map_some']
      rfl
    · by_cases hl : cfg.last = true <;> simp [hl, Run.after, DefaultMsgSize]
    · simp only [List.filter_append]
      rw [filter_eq_nil_of _ _ (fun e he => (hev2 e he).2.1)]
      by_cases hl : cfg.last = true <;> simp [hl, Event.isBufsize]
    · simp only [List.filter_append]
      rw [filter_eq_nil_of _ _ (fun e he => (hev2 e he).1)]
      by_cases hl : cfg.last = true <;> simp [hl, Event.isReissue, hag0]
    · by_cases hl : cfg.last = true <;> simp [hl, Run.after, hst2, hag0]

/-- Witness for C5: a plain query over `udp`, built with no EDNS0 flag, and a
network that answers every exchange with a truncated response. -/
theorem buffer_upgrade_once_witness :
    attachEdns false false "" (demoMsg 7 false []) = some (demoMsg 7 false []) ∧
    ∃ run rest,
      handler demoLib demoCfg truncNet ⟨"udp", false, demoMsg 7 false []⟩ 0
        (.ok (demoMsg 7 true []) 1500) = some run ∧
      run.trace =
        .tryBufsize 4096 :: .exchange (withOPT (demoMsg 7 false [])) "udp" "192.0.2.53:53"
          :: rest ∧
      (withOPT (demoMsg 7 false [])).Extra.filter RR.isOPT =
        [.OPT ⟨⟨".", 41, []⟩, 4096, false, []⟩] ∧
      rest.filter Event.isBufsize = [] ∧
      rest.filter Event.isReissue =
        (if (truncNet 0).truncatedFor (demoMsg 7 false []) then
          [.exchange (withOPT (demoMsg 7 false [])) "tcp" "192.0.2.53:53"]
          else []) ∧
      run.st.Net = (if (truncNet 0).truncatedFor (demoMsg 7 false []) then "tcp" else "udp") :=
  ⟨by decide,
   buffer_upgrade_once demoLib demoCfg truncNet ⟨"udp", false, demoMsg 7 false []⟩ 0
    (demoMsg 7 true []) 1500 (by decide) (by decide) (by decide) (by decide) (by decide)
    (by decide)⟩

/-- C6 (as amended): an accepted response with the truncation flag set that
is the final one.  With fallback disabled the handler prints `Truncated` and
then goes on with that response (checks, redaction, the two lines printed).
With fallback enabled and the transport `tcp`, which is where the ladder ends,
it prints no `Truncated` notice and goes on with that response; so a run that
goes through both upgrades and still gets a truncated response ends with the
tail for that response and no notice. -/
theorem truncated_final (lib : Lib) (cfg : Config) (net : Nat → Reply) (st : State) (k : Nat)
    (r : Msg) (rtt : Nat)
    (hid : r.MsgHdr.Id = st.m.MsgHdr.Id) (htc : r.MsgHdr.Truncated = true) :
    (cfg.fallback = false →
      ∀ fuel, Redo lib cfg net (fuel + 1) st k (.ok r rtt) =
        some ((conclude lib cfg net st k r rtt).after [.truncated])) ∧
    (cfg.fallback = true → st.Net = "tcp" →
      ∀ fuel, Redo lib cfg net (fuel + 1) st k (.ok r rtt) =
        some (conclude lib cfg net st k r rtt)) ∧
    Event.truncated ∉ (conclude lib cfg net st k r rtt).trace ∧
    (cfg.fallback = true → st.Net ≠ "tcp" → st.dnssec = false →
      ∀ (r2 : Msg) (rtt2 : Nat) (r3 : Msg) (rtt3 : Nat),
      net k = .ok r2 rtt2 → r2.MsgHdr.Id = st.m.MsgHdr.Id → r2.MsgHdr.Truncated = true →
      net (k + 1) = .ok r3 rtt3 → r3.MsgHdr.Id = st.m.MsgHdr.Id → r3.MsgHdr.Truncated = true →
      Redo lib cfg net 3 st k (.ok r rtt) =
        some ((conclude lib cfg net ⟨"tcp", true, withOPT st.m⟩ (k + 2) r3 rtt3).after
          [.tryBufsize DefaultMsgSize, .exchange (withOPT st.m) st.Net cfg.nameserver,
            .tryTCP, .exchange (withOPT st.m) "tcp" cfg.nameserver]) ∧
      Event.truncated ∉
        (conclude lib cfg net ⟨"tcp", true, withOPT st.m⟩ (k + 2) r3 rtt3).trace) := by
  have hnot : ∀ (st1 : State) (k1 : Nat) (r1 : Msg) (rtt1 : Nat),
      Event.truncated ∉ (conclude lib cfg net st1 k1 r1 rtt1).trace := by
    intro st1 k1 r1 rtt1 hm
    have := conclude_isTail lib cfg net st1 k1 r1 rtt1 _ hm
    simp [Event.isTail] at this
  refine ⟨?_, ?_, hnot st k r rtt, ?_⟩
  · intro hfb fuel
    rw [Redo_final lib cfg net fuel st k r rtt hid (by simp [hfb])]
    simp [htc, hfb]
  · intro hfb hnet fuel
    rw [Redo_final lib cfg net fuel st k r rtt hid (by simp [hnet])]
    simp [hfb, Run.after]
  · intro hfb hnet hd r2 rtt2 r3 rtt3 hk hid2 htc2 hk3 hid3 htc3
    refine ⟨?_, hnot _ _ _ _⟩
    rw [Redo_bufsize lib cfg net 2 st k r rtt hid htc hfb hnet hd, hk,
      Redo_tcp lib cfg net 1 ⟨st.Net, true, withOPT st.m⟩ (k + 1) r2 rtt2 hid2 htc2 hfb hnet
        rfl,
      hk3, Redo_final lib cfg net 0 ⟨"tcp", true, withOPT st.m⟩ (k + 1 + 1) r3 rtt3 hid3
        (by simp)]
    simp [hfb, Run.after]

/-- Witness for C6: the second query of a batch with fallback disabled gets a
truncated response. -/
theorem truncated_final_witness :
    Redo demoLib { demoCfg with fallback := false } truncNet 1
        ⟨"udp", false, demoMsg 7 false []⟩ 0 (.ok (demoMsg 7 true [demoNS]) 1500) =
      some ((conclude demoLib { demoCfg with fallback := false } truncNet
        ⟨"udp", false, demoMsg 7 false []⟩ 0 (demoMsg 7 true [demoNS]) 1500).after
          [.truncated]) :=
  (truncated_final demoLib { demoCfg with fallback := false } truncNet
    ⟨"udp", false, demoMsg 7 false []⟩ 0 (demoMsg 7 true [demoNS]) 1500
    (by decide) (by decide)).1 (by decide) 0

/-- Counterexample to C6 as stated: fallback enabled, a query over `udp`, and
a network whose every response is truncated.  The handler goes through both
upgrades and then prints the truncated response; its run holds no
`Truncated` notice. -/
theorem truncated_exhausted_no_notice :
    handler demoLib demoCfg truncNet ⟨"udp", false, demoMsg 7 false []⟩ 0
        (.ok (demoMsg 7 true []) 1500) =
      some ⟨[.tryBufsize 4096,
          .exchange (withOPT (demoMsg 7 false [])) "udp" "192.0.2.53:53",
          .tryTCP,
          .exchange (withOPT (demoMsg 7 false [])) "tcp" "192.0.2.53:53",
          .printMsg (demoMsg 7 true []),
          .queryTime 1 "192.0.2.53:53" "tcp" 120],
        ⟨"tcp", true, withOPT (demoMsg 7 false [])⟩, 2⟩ ∧
    (truncNet 1 = .ok (demoMsg 7 true []) 1500 ∧ (demoMsg 7 true []).MsgHdr.Truncated = true) ∧
    Event.truncated ∉
      [Event.tryBufsize 4096,
        .exchange (withOPT (demoMsg 7 false [])) "udp" "192.0.2.53:53",
        .tryTCP,
        .exchange (withOPT (demoMsg 7 false [])) "tcp" "192.0.2.53:53",
        .printMsg (demoMsg 7 true []),
        .queryTime 1 "192.0.2.53:53" "tcp" 120] := by
  decide

/-- C10 (the code at the failing input): with `-tcp -4` the transport is
`tcp4`, and with `-tcp -6` it is `tcp6`.  A truncated response with fallback
enabled then makes the handler re-issue the query twice, first with the
widened buffer over the same transport and then over `tcp`, and the transport
is changed to `tcp`.  Only with the transport `tcp` itself is the first
response the final one. -/
theorem tcp4_fallback_reissues :
    selectNet true true false = "tcp4" ∧ selectNet true false true = "tcp6" ∧
    selectNet true false false = "tcp" ∧
    handler demoLib { demoCfg with tcp := true } truncNet
        ⟨selectNet true true false, false, demoMsg 7 false []⟩ 0
        (.ok (demoMsg 7 true []) 1500) =
      some ⟨[.tryBufsize 4096,
          .exchange (withOPT (demoMsg 7 false [])) "tcp4" "192.0.2.53:53",
          .tryTCP,
          .exchange (withOPT (demoMsg 7 false [])) "tcp" "192.0.2.53:53",
          .printMsg (demoMsg 7 true []),
          .queryTime 1 "192.0.2.53:53" "tcp" 120],
        ⟨"tcp", true, withOPT (demoMsg 7 false [])⟩, 2⟩ ∧
    handler demoLib { demoCfg with tcp := true } truncNet
        ⟨selectNet true false true, false, demoMsg 7 false []⟩ 0
        (.ok (demoMsg 7 true []) 1500) =
      some ⟨[.tryBufsize 4096,
          .exchange (withOPT (demoMsg 7 false [])) "tcp6" "192.0.2.53:53",
          .tryTCP,
          .exchange (withOPT (demoMsg 7 false [])) "tcp" "192.0.2.53:53",
          .printMsg (demoMsg 7 true []),
          .queryTime 1 "192.0.2.53:53" "tcp" 120],
        ⟨"tcp", true, withOPT (demoMsg 7 false [])⟩, 2⟩ ∧
    handler demoLib { demoCfg with tcp := true } truncNet
        ⟨selectNet true false false, false, demoMsg 7 false []⟩ 0
        (.ok (demoMsg 7 true []) 1500) =
      some ⟨[.printMsg (demoMsg 7 true []), .queryTime 1 "192.0.2.53:53" "tcp" 120],
        ⟨"tcp", false, demoMsg 7 false []⟩, 0⟩ := by
  decide

end Q
